import Mathlib

/-!
# Rate-limiting middleware of `boxi`: a shallow embedding and its properties

Sources: `server/internal/middleware/ratelimit.go`, and for the password checks
`server/pkg/validator/validator.go` and `server/pkg/utils/password.go`.

Modelling conventions.

* `time.Time` is an instant counted in nanoseconds (`Int`), `time.Duration` a
  signed nanosecond count (`Int`); `t.After(u)` is `u < t` and `t.Add(d)` is
  `t + d`.  The machine bounds of both types are not modelled.
* `time.Now()` is an explicit argument `now` of `Allow` and `cleanup`.
* A Go map is a finite association list with unique keys (`AList`); reading a
  missing key yields the zero value (`nil`, the empty slice).
* The mutex and the background goroutines are left out of the sequential
  model; the reaper's calls appear as explicit `cleanup` calls in a trace.
* For concurrent callers of `GetLimiter` each locked region is one atomic step
  and an execution is an interleaving of such steps.
* The outcome of a constructor call includes the first statement of the
  goroutine it starts: a panic there ends the process.
* The types of the external packages (`rate.Limiter`, `gin.Context`) are
  records of the parts that the middleware reads or writes.
-/

namespace Middleware

/-! ## Time -/

/-- Instants (`time.Time`), in nanoseconds. -/
abbrev Time := Int

/-- Durations (`time.Duration`), in nanoseconds. -/
abbrev Duration := Int

/-- The test `t.After(u)`: the instant `t` is strictly later than `u`. -/
def Time.After (t u : Time) : Bool := decide (u < t)

/-- The instant `t.Add(d)`. -/
def Time.Add (t : Time) (d : Duration) : Time := t + d

/-! ## Method 3: the time-window limiter -/

/-- The map `requests map[string][]time.Time`. -/
abbrev RequestMap := AList (fun _ : String => List Time)

/-- The struct `WindowRateLimiter` (without its mutex). -/
structure WindowRateLimiter where
  requests : RequestMap
  limit : Int
  window : Duration

/-- The constructor `NewWindowRateLimiter`: an empty map and the two settings. -/
def NewWindowRateLimiter (limit : Int) (window : Duration) : WindowRateLimiter :=
  { requests := ∅, limit := limit, window := window }

/-- The map read `m[identifier]`, which is `nil` for a missing key. -/
def RequestMap.index (m : RequestMap) (identifier : String) : List Time :=
  (m.lookup identifier).getD []

/-- The prune loop shared by `Allow` and `cleanup`:
`validRequests := make([]time.Time, 0)` followed by
`for _, reqTime := range requests { if reqTime.After(cutoff) { append } }`. -/
def validRequests (requests : List Time) (cutoff : Time) : List Time :=
  requests.foldl
    (fun valid reqTime => if Time.After reqTime cutoff then valid ++ [reqTime] else valid) []

/-- The method `Allow`, with the sampled `time.Now()` as the argument `now`.
Returns the decision and the limiter afterwards. -/
def WindowRateLimiter.Allow (wrl : WindowRateLimiter) (identifier : String) (now : Time) :
    Bool × WindowRateLimiter :=
  let cutoff := Time.Add now (-wrl.window)
  let requests := wrl.requests.index identifier
  let valid := validRequests requests cutoff
  if wrl.limit ≤ (valid.length : Int) then
    (false, wrl)
  else
    (true, { wrl with requests := wrl.requests.insert identifier (valid ++ [now]) })

/-- One iteration of the `range` loop of `cleanup` on the entry `e`. -/
def cleanupEntry (cutoff : Time) (m : RequestMap) (e : Sigma fun _ : String => List Time) :
    RequestMap :=
  let valid := validRequests e.2 cutoff
  if valid.length = 0 then m.erase e.1 else m.insert e.1 valid

/-- The method `cleanup`, with the sampled `time.Now()` as the argument `now`:
the loop visits every entry of the map once. -/
def WindowRateLimiter.cleanup (wrl : WindowRateLimiter) (now : Time) : WindowRateLimiter :=
  let cutoff := Time.Add now (-wrl.window)
  { wrl with requests := wrl.requests.entries.foldl (cleanupEntry cutoff) wrl.requests }

/-! ### Traces of calls -/

/-- A call on the limiter: an `Allow` from a request or a `cleanup` from the ticker. -/
inductive Call where
  | allow (identifier : String) (now : Time)
  | cleanup (now : Time)
  deriving DecidableEq

/-- The sampled time of a call. -/
def Call.time : Call → Time
  | .allow _ now => now
  | .cleanup now => now

/-- The record of one `Allow` call: who asked, when, and the decision. -/
structure Event where
  identifier : String
  now : Time
  admitted : Bool
  deriving DecidableEq

/-- One call, on the limiter and the record of the decisions so far. -/
def step (st : WindowRateLimiter × List Event) : Call → WindowRateLimiter × List Event
  | .allow identifier now =>
      let r := st.1.Allow identifier now
      (r.2, st.2 ++ [{ identifier := identifier, now := now, admitted := r.1 }])
  | .cleanup now => (st.1.cleanup now, st.2)

/-- A sequence of calls run from the limiter `wrl`. -/
def run (wrl : WindowRateLimiter) (calls : List Call) : WindowRateLimiter × List Event :=
  calls.foldl step (wrl, [])

/-- The times of the admitted `Allow(identifier)` calls of a record, in call order. -/
def admittedTimes (log : List Event) (identifier : String) : List Time :=
  (log.filter fun e => decide (e.identifier = identifier) && e.admitted).map Event.now

/-- The sampled times of a sequence of calls are non-decreasing. -/
abbrev NonDecreasing (calls : List Call) : Prop :=
  (calls.map Call.time).Sorted (· ≤ ·)

/-- What one visit of the `cleanup` loop leaves for an entry with history `rs`. -/
def pruned (cutoff : Time) (rs : List Time) : Option (List Time) :=
  if (validRequests rs cutoff).length = 0 then none else some (validRequests rs cutoff)

/-- The calls of a trace that are not an `Allow` for the identifier `a`. -/
def notAllowFor (a : String) : Call → Bool
  | .allow identifier _ => decide (identifier ≠ a)
  | .cleanup _ => true

/-- The `Allow` records of one identifier, in call order. -/
def eventsFor (log : List Event) (identifier : String) : List Event :=
  log.filter fun e => decide (e.identifier = identifier)

/-! ## Method 2: the per-IP registry -/

/-- The type `rate.Limit`, a number of events per second. It is a `float64` in the library;
the registry only stores it and hands it on, and a rational stands for it here. -/
abbrev Limit := Rat

/-- Modelled from the spec: the type `rate.Limiter` belongs to the external package
`golang.org/x/time/rate`, which is not part of this repository. A limiter object is
"configured" with a rate and a burst; its token state is not described here. -/
structure Limiter where
  limit : Limit
  burst : Int
  deriving DecidableEq

/-- The address of a limiter object, a value of type `*rate.Limiter`. -/
abbrev LimiterRef := Nat

/-- The limiter objects allocated so far: the object at address `p` is `heap[p]`. -/
abbrev Heap := List Limiter

/-- Modelled from the spec: the constructor `rate.NewLimiter(r, b)` of the external package
`golang.org/x/time/rate`: it allocates a new limiter object configured with rate `r` and
burst `b` and returns its address. -/
def NewLimiter (r : Limit) (b : Int) (heap : Heap) : LimiterRef × Heap :=
  (heap.length, heap ++ [{ limit := r, burst := b }])

/-- The struct `IPRateLimiter` (without its mutex). -/
structure IPRateLimiter where
  ips : AList (fun _ : String => LimiterRef)
  r : Limit
  b : Int

/-- The constructor `NewIPRateLimiter`: an empty map and the two settings. -/
def NewIPRateLimiter (r : Limit) (b : Int) : IPRateLimiter :=
  { ips := ∅, r := r, b := b }

/-- The method `AddIP`: construct a limiter and store it under `ip`, unconditionally. -/
def IPRateLimiter.AddIP (i : IPRateLimiter) (ip : String) (heap : Heap) :
    LimiterRef × IPRateLimiter × Heap :=
  let limiter := NewLimiter i.r i.b heap
  (limiter.1, { i with ips := i.ips.insert ip limiter.1 }, limiter.2)

/-- The method `GetLimiter` in a sequential execution: the map read, then `AddIP` when the
key is missing. -/
def IPRateLimiter.GetLimiter (i : IPRateLimiter) (ip : String) (heap : Heap) :
    LimiterRef × IPRateLimiter × Heap :=
  match i.ips.lookup ip with
  | some limiter => (limiter, i, heap)
  | none => i.AddIP ip heap

/-- One iteration of the `range` loop of `CleanupStaleEntries` on the entry `e`, with the
test `limiter.Tokens() == float64(i.b)`. The value `Tokens limiter` is what the external
method `limiter.Tokens()` returns at that visit, a `float64` that a rational stands for;
`toFloat64` is the conversion `float64(...)` of an `int`, which rounds to the nearest
`float64` and is exact for integers of absolute value at most 2^53. -/
def cleanupStaleEntry (toFloat64 : Int → Rat) (Tokens : LimiterRef → Rat) (b : Int)
    (m : AList (fun _ : String => LimiterRef)) (e : Sigma fun _ : String => LimiterRef) :
    AList (fun _ : String => LimiterRef) :=
  if Tokens e.2 = toFloat64 b then m.erase e.1 else m

/-- The method `CleanupStaleEntries`: the loop visits every entry of the map once. -/
def IPRateLimiter.CleanupStaleEntries (i : IPRateLimiter) (toFloat64 : Int → Rat)
    (Tokens : LimiterRef → Rat) : IPRateLimiter :=
  { i with ips := i.ips.entries.foldl (cleanupStaleEntry toFloat64 Tokens i.b) i.ips }

/-! ### Concurrent callers of `GetLimiter`

The mutex makes each locked region atomic. `GetLimiter` has two of them: the map read
(`Lock` ... `Unlock`), and, when the key was missing, the body of `AddIP` (`Lock` ...
`Unlock`); the lock is released in between. -/

/-- Where a caller of `GetLimiter(ip)` stands: before the locked map read, between the
`Unlock` after a miss and the `Lock` of `AddIP`, or returned with a limiter. -/
inductive Caller where
  | reading (ip : String)
  | adding (ip : String)
  | returned (limiter : LimiterRef)
  deriving DecidableEq

/-- One locked region of a caller, run on the shared registry and heap. -/
def Caller.step (shared : IPRateLimiter × Heap) : Caller → Caller × (IPRateLimiter × Heap)
  | .reading ip =>
      match shared.1.ips.lookup ip with
      | some limiter => (.returned limiter, shared)
      | none => (.adding ip, shared)
  | .adding ip =>
      let r := shared.1.AddIP ip shared.2
      (.returned r.1, r.2)
  | .returned limiter => (.returned limiter, shared)

/-- An interleaving: the callers' locked regions run in the order given by the list of
caller indices. -/
def interleave (callers : List Caller) (shared : IPRateLimiter × Heap) :
    List Nat → List Caller × (IPRateLimiter × Heap)
  | [] => (callers, shared)
  | k :: ks =>
      match callers[k]? with
      | none => interleave callers shared ks
      | some c => interleave (callers.set k (c.step shared).1) (c.step shared).2 ks

/-! ### The token bucket behind a limiter -/

/-- Modelled from the spec: the token state of a `rate.Limiter`, a type of the external
package `golang.org/x/time/rate`: "a bucket holds up to `burst` tokens, refilling
continuously at `rate` tokens/second; each admitted request consumes one token". The state
is the token count left by the last call and the instant of that call. -/
structure Bucket where
  tokens : Rat
  last : Time

/-- The duration `time.Minute`, the reap interval of `NewIPRateLimiter`, in nanoseconds. -/
def Minute : Duration := 60000000000

/-- The seconds between two instants, as a rational. -/
def secondsBetween (earlier later : Time) : Rat := ((later - earlier : Int) : Rat) / 1000000000

/-- Modelled from the spec: the method `Tokens()` of the external `rate.Limiter`, the token
count at `now`, which is `min(b, tokens + r * elapsed)`. -/
def Bucket.Tokens (r : Limit) (b : Int) (bucket : Bucket) (now : Time) : Rat :=
  min (b : Rat) (bucket.tokens + r * secondsBetween bucket.last now)

/-- Modelled from the spec: the method `Allow()` of the external `rate.Limiter` at `now`: it
consumes one token if one is available and denies otherwise. -/
def Bucket.Allow (r : Limit) (b : Int) (bucket : Bucket) (now : Time) : Bool × Bucket :=
  if 1 ≤ bucket.Tokens r b now then
    (true, { tokens := bucket.Tokens r b now - 1, last := now })
  else
    (false, { tokens := bucket.Tokens r b now, last := now })

/-- Modelled from the spec: the bucket of a limiter constructed at `now` is full. -/
def Bucket.full (b : Int) (now : Time) : Bucket := { tokens := (b : Rat), last := now }

/-- The bucket after `n` successive `Allow()` calls, all at the instant `now`. -/
def Bucket.allowTimes (r : Limit) (b : Int) (now : Time) : Nat → Bucket → Bucket
  | 0, bucket => bucket
  | n + 1, bucket => Bucket.allowTimes r b now n (bucket.Allow r b now).2

/-! ## The gin adapters -/

/-- Modelled from the spec: the type `gin.Context` belongs to the external package
`github.com/gin-gonic/gin`, which is not part of this repository. Kept here is what the
adapters act on: the response headers, the written status and JSON body (an object with
string fields), the abort flag, and how often the downstream chain was continued. -/
structure Context where
  headers : List (String × String)
  status : Option Nat
  body : Option (List (String × String))
  aborted : Bool
  nextCalls : Nat
  deriving DecidableEq

/-- Modelled from the spec: the external method `c.Header(key, value)` of gin sets a response
header, replacing an earlier value. -/
def Context.Header (c : Context) (key value : String) : Context :=
  { c with headers := (key, value) :: c.headers.filter fun h => decide (h.1 ≠ key) }

/-- Modelled from the spec: the external method `c.JSON(code, obj)` of gin writes the status
code and the object as the body. -/
def Context.JSON (c : Context) (code : Nat) (obj : List (String × String)) : Context :=
  { c with status := some code, body := some obj }

/-- Modelled from the spec: the external method `c.Abort()` of gin keeps the pending handlers
from being called. -/
def Context.Abort (c : Context) : Context :=
  { c with aborted := true }

/-- Modelled from the spec: the external method `c.Next()` of gin runs the pending handlers
of the chain; the model counts the call. -/
def Context.Next (c : Context) : Context :=
  { c with nextCalls := c.nextCalls + 1 }

/-- The constant `http.StatusTooManyRequests`. -/
def StatusTooManyRequests : Nat := 429

/-- The handler returned by `TokenBucketRateLimit(rps, burst)`. The answer of the external
`limiter.Allow()` is the argument `allowed`; `fmtRate` stands for
`fmt.Sprintf("%.0f", float64(rps))`. -/
def TokenBucketRateLimit (fmtRate : Limit → String) (rps : Limit) (allowed : Bool)
    (c : Context) : Context :=
  if !allowed then
    ((((c.Header "X-RateLimit-Limit" (fmtRate rps)).Header "X-RateLimit-Remaining" "0").Header
      "Retry-After" "1").JSON StatusTooManyRequests [("error", "Rate limit exceeded")]).Abort
  else
    c.Next

/-- The handler returned by `IPRateLimit(rateLimiter)`, for a request whose `c.ClientIP()` is
`ip`. The answer of the external `limiter.Allow()` on the limiter obtained is
`allowed limiter`. -/
def IPRateLimit (fmtRate : Limit → String) (rateLimiter : IPRateLimiter) (heap : Heap)
    (allowed : LimiterRef → Bool) (ip : String) (c : Context) :
    Context × IPRateLimiter × Heap :=
  let limiter := rateLimiter.GetLimiter ip heap
  if !allowed limiter.1 then
    (((((c.Header "X-RateLimit-Limit" (fmtRate rateLimiter.r)).Header "X-RateLimit-Remaining"
      "0").Header "Retry-After" "1").JSON StatusTooManyRequests
        [("error", "Rate limit exceeded"),
          ("message", "Too many requests from your IP address")]).Abort, limiter.2)
  else
    (c.Next, limiter.2)

/-- The handler returned by `WindowRateLimit(limiter)`, for a request whose `c.ClientIP()` is
`ip`, at the sampled time `now`; `fmtDuration` stands for `time.Duration.String`, and `%d`
prints the limit in decimal. -/
def WindowRateLimit (fmtDuration : Duration → String) (limiter : WindowRateLimiter)
    (ip : String) (now : Time) (c : Context) : Context × WindowRateLimiter :=
  let r := limiter.Allow ip now
  if !r.1 then
    ((((c.Header "X-RateLimit-Limit" (toString limiter.limit)).Header "X-RateLimit-Window"
      (fmtDuration limiter.window)).JSON StatusTooManyRequests
        [("error", "Rate limit exceeded"),
          ("message", "Maximum " ++ toString limiter.limit ++ " requests per "
            ++ fmtDuration limiter.window)]).Abort, r.2)
  else
    (c.Next, r.2)

/-! ### Construction -/

/-- The function `time.NewTicker(d)` of the Go standard library at its call: it panics with
"non-positive interval for NewTicker" when `d <= 0`, and returns a ticker otherwise, of
which the period is kept. -/
def NewTicker (d : Duration) : Except String Duration :=
  if d ≤ 0 then Except.error "non-positive interval for NewTicker" else Except.ok d

/-- The goroutine that `NewWindowRateLimiter` starts on the limiter it has built, up to the
head of its loop: the statement `ticker := time.NewTicker(window)`. The result is the period
at which the loop will call `cleanup`, or the panic of that statement. -/
def reaper (wrl : WindowRateLimiter) : Except String Duration :=
  NewTicker wrl.window

/-- The whole of a call `NewWindowRateLimiter(limit, window)`: the struct is built, the
goroutine is started on it, and the struct is returned. A panic in a goroutine is not
recovered and ends the whole process, limiter included: the outcome is then that panic, and
otherwise the limiter the program goes on with. -/
def startWindowRateLimiter (limit : Int) (window : Duration) :
    Except String WindowRateLimiter :=
  match reaper (NewWindowRateLimiter limit window) with
  | Except.error panicMessage => Except.error panicMessage
  | Except.ok _ => Except.ok (NewWindowRateLimiter limit window)

/-- The whole of a call `NewIPRateLimiter(r, b)`: the struct is built and returned; the
goroutine it starts sleeps for `time.Minute` and sweeps, in a loop in which nothing panics. -/
def startIPRateLimiter (r : Limit) (b : Int) : Except String IPRateLimiter :=
  Except.ok (NewIPRateLimiter r b)

end Middleware

/-! # Go strings

A Go string is a sequence of bytes; `len(s)` is the number of bytes, and
`for _, char := range s` visits the code points that the UTF-8 decoder of the
language finds, one `utf8.RuneError` per byte that starts no valid encoding. -/

namespace Go

/-- A Go `string`: its bytes, each a number below 256. -/
abbrev GoString := List Nat

/-- The bytes of a string literal of ASCII characters. -/
def ofAscii (s : String) : GoString := s.toList.map Char.toNat

/-- The constant `utf8.RuneError`, U+FFFD. -/
def RuneError : Nat := 0xFFFD

/-- The table `first` of package `unicode/utf8` together with `acceptRanges`, for the lead
bytes of multi-byte encodings: the size of the encoding and the range accepted for the second
byte. ASCII and invalid lead bytes have no entry. -/
def first (s0 : Nat) : Option (Nat × Nat × Nat) :=
  if 0xC2 ≤ s0 ∧ s0 ≤ 0xDF then some (2, 0x80, 0xBF)
  else if s0 = 0xE0 then some (3, 0xA0, 0xBF)
  else if 0xE1 ≤ s0 ∧ s0 ≤ 0xEC then some (3, 0x80, 0xBF)
  else if s0 = 0xED then some (3, 0x80, 0x9F)
  else if 0xEE ≤ s0 ∧ s0 ≤ 0xEF then some (3, 0x80, 0xBF)
  else if s0 = 0xF0 then some (4, 0x90, 0xBF)
  else if 0xF1 ≤ s0 ∧ s0 ≤ 0xF3 then some (4, 0x80, 0xBF)
  else if s0 = 0xF4 then some (4, 0x80, 0x8F)
  else none

/-- The function `utf8.DecodeRuneInString` on a non-empty string: the first code point and
the number of bytes it takes; `(RuneError, 1)` when the bytes start no valid encoding. -/
def DecodeRuneInString (s : GoString) : Nat × Nat :=
  let s0 := s.getD 0 0
  if s0 < 0x80 then (s0, 1)
  else
    match first s0 with
    | none => (RuneError, 1)
    | some (sz, lo, hi) =>
      if s.length < sz then (RuneError, 1)
      else
        let s1 := s.getD 1 0
        if s1 < lo ∨ hi < s1 then (RuneError, 1)
        else if sz ≤ 2 then ((s0 % 32) * 64 + s1 % 64, 2)
        else
          let s2 := s.getD 2 0
          if s2 < 0x80 ∨ 0xBF < s2 then (RuneError, 1)
          else if sz ≤ 3 then ((s0 % 16) * 4096 + (s1 % 64) * 64 + s2 % 64, 3)
          else
            let s3 := s.getD 3 0
            if s3 < 0x80 ∨ 0xBF < s3 then (RuneError, 1)
            else ((s0 % 8) * 262144 + (s1 % 64) * 4096 + (s2 % 64) * 64 + s3 % 64, 4)

/-- The code points visited by `for _, char := range s`, with a bound on the number of
iterations. -/
def runesFrom : Nat → GoString → List Nat
  | 0, _ => []
  | _ + 1, [] => []
  | fuel + 1, s0 :: rest =>
      (DecodeRuneInString (s0 :: rest)).1 ::
        runesFrom fuel ((s0 :: rest).drop (DecodeRuneInString (s0 :: rest)).2)

/-- The code points visited by `for _, char := range s`; every iteration consumes at least
one byte, so `len(s)` iterations are enough. -/
def runes (s : GoString) : List Nat := runesFrom s.length s

/-- The function `strings.ContainsRune(s, r)`: the code point `r` is within `s`. -/
def ContainsRune (s : GoString) (r : Nat) : Bool := decide (r ∈ runes s)

end Go

/-! # Base64 and slices -/

namespace Go

end Go

/-! # Package `validator` -/

namespace Validator

/-- The four flags of the password checkers. -/
structure Flags where
  hasUpper : Bool
  hasLower : Bool
  hasNumber : Bool
  hasSpecial : Bool
  deriving DecidableEq

/-- The string literal of the special characters in `validatePassword`. -/
def specialLiteral : Go.GoString := Go.ofAscii "!@#$%^&*()_+-=[]\x7b\x7d|;:,.<>?"

/-- The body of the `range` loop of `validatePassword`: the `switch` on `char`, with
`'A'` = 65, `'Z'` = 90, `'a'` = 97, `'z'` = 122, `'0'` = 48 and `'9'` = 57. -/
def visitValidate (f : Flags) (char : Nat) : Flags :=
  if 65 ≤ char ∧ char ≤ 90 then { f with hasUpper := true }
  else if 97 ≤ char ∧ char ≤ 122 then { f with hasLower := true }
  else if 48 ≤ char ∧ char ≤ 57 then { f with hasNumber := true }
  else if Go.ContainsRune specialLiteral char then { f with hasSpecial := true }
  else f

/-- The function `validatePassword`, on the string `fl.Field().String()`. -/
def validatePassword (password : Go.GoString) : Bool :=
  if password.length < 8 then false
  else
    let f := (Go.runes password).foldl visitValidate
      { hasUpper := false, hasLower := false, hasNumber := false, hasSpecial := false }
    f.hasUpper && f.hasLower && f.hasNumber && f.hasSpecial

end Validator

/-! # Package `utils` -/

namespace Utils

/-- The local `specialChars` of `ValidatePasswordStrength`. -/
def specialChars : Go.GoString := Go.ofAscii "!@#$%^&*()_+-=[]\x7b\x7d|;:,.<>?"

/-- The inner loop of `ValidatePasswordStrength` over the code points of `specialChars`:
it sets `hasSpecial` and breaks at the first one equal to `char`. -/
def scanSpecial (char : Nat) : List Nat → Bool → Bool
  | [], hasSpecial => hasSpecial
  | special :: rest, hasSpecial =>
      if char = special then true else scanSpecial char rest hasSpecial

/-- The body of the outer `range` loop of `ValidatePasswordStrength`. -/
def visitStrength (f : Validator.Flags) (char : Nat) : Validator.Flags :=
  if 65 ≤ char ∧ char ≤ 90 then { f with hasUpper := true }
  else if 97 ≤ char ∧ char ≤ 122 then { f with hasLower := true }
  else if 48 ≤ char ∧ char ≤ 57 then { f with hasNumber := true }
  else { f with hasSpecial := scanSpecial char (Go.runes specialChars) f.hasSpecial }

/-- The function `ValidatePasswordStrength`; `none` is the `nil` error. -/
def ValidatePasswordStrength (password : Go.GoString) : Option String :=
  if password.length < 8 then some "password must be at least 8 characters long"
  else
    let f := (Go.runes password).foldl visitStrength
      { hasUpper := false, hasLower := false, hasNumber := false, hasSpecial := false }
    if !f.hasUpper then some "password must contain at least one uppercase letter"
    else if !f.hasLower then some "password must contain at least one lowercase letter"
    else if !f.hasNumber then some "password must contain at least one number"
    else if !f.hasSpecial then some "password must contain at least one special character"
    else none

end Utils

namespace Middleware

/-! ## Lemmas on the prune -/

theorem validRequests_foldl (cutoff : Time) (requests acc : List Time) :
    requests.foldl
      (fun valid reqTime => if Time.After reqTime cutoff then valid ++ [reqTime] else valid) acc
      = acc ++ requests.filter (fun t => Time.After t cutoff) := by
  induction requests generalizing acc with
  | nil => simp
  | cons t ts ih =>
    simp only [List.foldl_cons, ih, List.filter_cons]
    split <;> simp

theorem validRequests_eq_filter (requests : List Time) (cutoff : Time) :
    validRequests requests cutoff = requests.filter (fun t => Time.After t cutoff) := by
  simp [validRequests, validRequests_foldl]

/-! ## Lemmas on `cleanup` -/

theorem lookup_cleanupEntry_self (cutoff : Time) (m : RequestMap)
    (e : Sigma fun _ : String => List Time) :
    (cleanupEntry cutoff m e).lookup e.1 = pruned cutoff e.2 := by
  unfold cleanupEntry pruned
  by_cases h : (validRequests e.2 cutoff).length = 0
  · simp [h]
  · simp [h]

theorem lookup_cleanupEntry_ne (cutoff : Time) (m : RequestMap)
    (e : Sigma fun _ : String => List Time) (id : String) (h : id ≠ e.1) :
    (cleanupEntry cutoff m e).lookup id = m.lookup id := by
  unfold cleanupEntry
  by_cases hv : (validRequests e.2 cutoff).length = 0
  · simp [hv, AList.lookup_erase_ne h]
  · simp [hv, AList.lookup_insert_ne h]

theorem lookup_foldl_cleanupEntry (cutoff : Time) (id : String) :
    ∀ (es : List (Sigma fun _ : String => List Time)) (m : RequestMap), es.NodupKeys →
      (es.foldl (cleanupEntry cutoff) m).lookup id =
        match es.dlookup id with
        | some rs => pruned cutoff rs
        | none => m.lookup id
  | [], m, _ => by simp
  | e :: es, m, hnd => by
    obtain ⟨k, v⟩ := e
    rw [List.nodupKeys_cons] at hnd
    rw [List.foldl_cons, lookup_foldl_cleanupEntry cutoff id es _ hnd.2]
    by_cases h : id = k
    · subst h
      have hn : List.dlookup id es = none := List.dlookup_eq_none.2 hnd.1
      rw [hn, List.dlookup_cons_eq]
      exact lookup_cleanupEntry_self cutoff m ⟨id, v⟩
    · rw [List.dlookup_cons_ne _ _ h]
      cases hl : List.dlookup id es with
      | some rs => rfl
      | none => exact lookup_cleanupEntry_ne cutoff m ⟨k, v⟩ id h

theorem lookup_cleanup (wrl : WindowRateLimiter) (now : Time) (id : String) :
    (wrl.cleanup now).requests.lookup id =
      (wrl.requests.lookup id).bind (pruned (Time.Add now (-wrl.window))) := by
  unfold WindowRateLimiter.cleanup
  simp only
  rw [lookup_foldl_cleanupEntry _ _ _ _ wrl.requests.nodupKeys]
  unfold AList.lookup
  cases List.dlookup id wrl.requests.entries <;> rfl

/-- The order in which the `range` loop of `cleanup` visits the entries does not matter. -/
theorem lookup_cleanup_any_order (wrl : WindowRateLimiter) (now : Time) (id : String)
    (es : List (Sigma fun _ : String => List Time)) (hperm : es.Perm wrl.requests.entries) :
    (es.foldl (cleanupEntry (Time.Add now (-wrl.window))) wrl.requests).lookup id
      = (wrl.cleanup now).requests.lookup id := by
  have hnd : es.NodupKeys := (List.perm_nodupKeys hperm).2 wrl.requests.nodupKeys
  rw [lookup_cleanup, lookup_foldl_cleanupEntry _ _ _ _ hnd,
    List.perm_dlookup id hnd wrl.requests.nodupKeys hperm]
  unfold AList.lookup
  cases List.dlookup id wrl.requests.entries <;> rfl

/-! ## Lemmas on `Allow` -/

theorem allow_fst (wrl : WindowRateLimiter) (id : String) (now : Time) :
    (wrl.Allow id now).1 = decide
      ((((wrl.requests.index id).filter
          fun t => Time.After t (Time.Add now (-wrl.window))).length : Int) < wrl.limit) := by
  unfold WindowRateLimiter.Allow
  simp only [validRequests_eq_filter]
  split <;> simp_all

theorem allow_limit (wrl : WindowRateLimiter) (id : String) (now : Time) :
    (wrl.Allow id now).2.limit = wrl.limit := by
  unfold WindowRateLimiter.Allow
  simp only
  split <;> rfl

theorem allow_window (wrl : WindowRateLimiter) (id : String) (now : Time) :
    (wrl.Allow id now).2.window = wrl.window := by
  unfold WindowRateLimiter.Allow
  simp only
  split <;> rfl

theorem allow_lookup_ne (wrl : WindowRateLimiter) (id other : String) (now : Time)
    (h : other ≠ id) :
    (wrl.Allow id now).2.requests.lookup other = wrl.requests.lookup other := by
  unfold WindowRateLimiter.Allow
  simp only
  split
  · rfl
  · exact AList.lookup_insert_ne h

theorem allow_index_ne (wrl : WindowRateLimiter) (id other : String) (now : Time)
    (h : other ≠ id) :
    (wrl.Allow id now).2.requests.index other = wrl.requests.index other := by
  unfold RequestMap.index
  rw [allow_lookup_ne wrl id other now h]

theorem allow_denied (wrl : WindowRateLimiter) (id : String) (now : Time)
    (h : (wrl.Allow id now).1 = false) : (wrl.Allow id now).2 = wrl := by
  unfold WindowRateLimiter.Allow at h ⊢
  simp only at h ⊢
  split
  · rfl
  · rename_i hlt
    rw [if_neg hlt] at h
    cases h

theorem allow_admitted (wrl : WindowRateLimiter) (id : String) (now : Time)
    (h : (wrl.Allow id now).1 = true) :
    (wrl.Allow id now).2.requests.lookup id =
      some ((wrl.requests.index id).filter
        (fun t => Time.After t (Time.Add now (-wrl.window))) ++ [now]) := by
  unfold WindowRateLimiter.Allow at h ⊢
  simp only [validRequests_eq_filter] at h ⊢
  split
  · rename_i hle
    rw [if_pos hle] at h
    cases h
  · exact AList.lookup_insert _

theorem cleanup_limit (wrl : WindowRateLimiter) (now : Time) :
    (wrl.cleanup now).limit = wrl.limit := rfl

theorem cleanup_window (wrl : WindowRateLimiter) (now : Time) :
    (wrl.cleanup now).window = wrl.window := rfl

theorem index_cleanup (wrl : WindowRateLimiter) (now : Time) (id : String) :
    (wrl.cleanup now).requests.index id =
      (wrl.requests.index id).filter fun t => Time.After t (Time.Add now (-wrl.window)) := by
  unfold RequestMap.index
  rw [lookup_cleanup]
  cases h : wrl.requests.lookup id with
  | none => simp
  | some rs =>
    simp only [Option.some_bind, pruned, validRequests_eq_filter, Option.getD_some]
    split
    · rename_i h0
      simp [List.length_eq_zero.1 h0]
    · rfl

/-! ## Lemmas on traces -/

theorem run_nil (wrl : WindowRateLimiter) : run wrl [] = (wrl, []) := rfl

theorem run_snoc (wrl : WindowRateLimiter) (calls : List Call) (c : Call) :
    run wrl (calls ++ [c]) = step (run wrl calls) c := by
  simp [run, List.foldl_append]

theorem run_limit (wrl : WindowRateLimiter) (calls : List Call) :
    (run wrl calls).1.limit = wrl.limit := by
  induction calls using List.reverseRecOn with
  | nil => rfl
  | append_singleton calls c ih =>
    rw [run_snoc]
    cases c with
    | allow id now => simpa [step, allow_limit] using ih
    | cleanup now => simpa [step, cleanup_limit] using ih

theorem run_window (wrl : WindowRateLimiter) (calls : List Call) :
    (run wrl calls).1.window = wrl.window := by
  induction calls using List.reverseRecOn with
  | nil => rfl
  | append_singleton calls c ih =>
    rw [run_snoc]
    cases c with
    | allow id now => simpa [step, allow_window] using ih
    | cleanup now => simpa [step, cleanup_window] using ih

theorem nonDecreasing_snoc (calls : List Call) (c : Call) (h : NonDecreasing (calls ++ [c])) :
    NonDecreasing calls ∧ ∀ x ∈ calls, x.time ≤ c.time := by
  unfold NonDecreasing List.Sorted at h ⊢
  rw [List.map_append, List.pairwise_append] at h
  refine ⟨h.1, fun x hx => h.2.2 _ (List.mem_map_of_mem _ hx) _ (by simp)⟩

theorem filter_after_filter_after (l : List Time) (c d : Time) (h : d ≤ c) :
    (l.filter fun t => Time.After t d).filter (fun t => Time.After t c)
      = l.filter fun t => Time.After t c := by
  rw [List.filter_filter]
  apply List.filter_congr
  intro t _
  simp only [Time.After, Bool.and_eq_true, decide_eq_true_eq, Bool.decide_and]
  by_cases hc : c < t
  · have : d < t := lt_of_le_of_lt h hc
    simp [hc, this]
  · simp [hc]

theorem admittedTimes_nil (id : String) : admittedTimes [] id = [] := rfl

theorem admittedTimes_snoc (log : List Event) (e : Event) (id : String) :
    admittedTimes (log ++ [e]) id =
      admittedTimes log id ++ (if e.identifier = id ∧ e.admitted = true then [e.now] else []) := by
  unfold admittedTimes
  rw [List.filter_append, List.map_append]
  congr 1
  by_cases h : e.identifier = id <;> cases ha : e.admitted <;> simp [h, ha]

/-- The stored history of an identifier and its admitted calls agree above every cutoff that
the later calls can use. -/
theorem history_tracks_admitted (limit : Int) (window : Duration) (calls : List Call)
    (hmono : NonDecreasing calls) (id : String) (c : Time)
    (hc : ∀ x ∈ calls, x.time - window ≤ c) :
    ((run (NewWindowRateLimiter limit window) calls).1.requests.index id).filter
        (fun t => Time.After t c)
      = (admittedTimes (run (NewWindowRateLimiter limit window) calls).2 id).filter
        (fun t => Time.After t c) := by
  induction calls using List.reverseRecOn generalizing c with
  | nil => rfl
  | append_singleton calls x ih =>
    obtain ⟨hm, hle⟩ := nonDecreasing_snoc calls x hmono
    have hcx : x.time - window ≤ c := hc x (by simp)
    have ihc := ih hm c (fun y hy => hc y (by simp [hy]))
    rw [run_snoc]
    have hw : (run (NewWindowRateLimiter limit window) calls).1.window = window :=
      run_window (NewWindowRateLimiter limit window) calls
    cases x with
    | cleanup now =>
      simp only [step, index_cleanup]
      rw [filter_after_filter_after _ _ _ (by simpa [Time.Add, hw, Call.time, sub_eq_add_neg] using hcx)]
      exact ihc
    | allow id' now =>
      simp only [step]
      rw [admittedTimes_snoc]
      by_cases hid : id' = id
      · subst hid
        cases hadm : ((run (NewWindowRateLimiter limit window) calls).1.Allow id' now).1 with
        | false =>
          rw [allow_denied _ _ _ hadm]
          simpa using ihc
        | true =>
          have := allow_admitted _ _ _ hadm
          simp only [RequestMap.index, this, Option.getD_some]
          simp only [List.filter_append, if_true, and_self]
          rw [filter_after_filter_after _ _ _
            (by simpa [Time.Add, hw, Call.time, sub_eq_add_neg] using hcx)]
          have ihc' := ihc
          simp only [RequestMap.index] at ihc'
          rw [ihc']
      · rw [allow_index_ne _ _ _ _ (Ne.symm hid)]
        simpa [hid] using ihc

theorem index_length_le (limit : Int) (window : Duration) (calls : List Call) (id : String) :
    (((run (NewWindowRateLimiter limit window) calls).1.requests.index id).length : Int)
      ≤ max limit 0 := by
  induction calls using List.reverseRecOn with
  | nil => simp [run_nil, NewWindowRateLimiter, RequestMap.index]
  | append_singleton calls x ih =>
    rw [run_snoc]
    have hl : (run (NewWindowRateLimiter limit window) calls).1.limit = limit :=
      run_limit (NewWindowRateLimiter limit window) calls
    cases x with
    | cleanup now =>
      simp only [step, index_cleanup]
      have := List.length_filter_le
        (fun t => Time.After t
          (Time.Add now (-(run (NewWindowRateLimiter limit window) calls).1.window)))
        ((run (NewWindowRateLimiter limit window) calls).1.requests.index id)
      omega
    | allow id' now =>
      simp only [step]
      by_cases hid : id' = id
      · subst hid
        cases hadm : ((run (NewWindowRateLimiter limit window) calls).1.Allow id' now).1 with
        | false =>
          rw [allow_denied _ _ _ hadm]
          exact ih
        | true =>
          have hst := allow_admitted _ _ _ hadm
          have hdec := hadm
          rw [allow_fst, decide_eq_true_eq, hl] at hdec
          simp only [RequestMap.index, hst, Option.getD_some, List.length_append,
            List.length_singleton]
          simp only [RequestMap.index] at hdec
          have := le_max_left limit 0
          omega
      · rw [allow_index_ne _ _ _ _ (Ne.symm hid)]
        exact ih

/-- The decision of `Allow` on a reachable state counts exactly the admitted calls that are
later than the cutoff. -/
theorem decision_iff_count (limit : Int) (window : Duration) (pre : List Call)
    (id : String) (now : Time) (hmono : NonDecreasing (pre ++ [Call.allow id now])) :
    ((run (NewWindowRateLimiter limit window) pre).1.Allow id now).1 = true ↔
      (((admittedTimes (run (NewWindowRateLimiter limit window) pre).2 id).countP
          fun t => decide (now - window < t) : Nat) : Int) < limit := by
  obtain ⟨hm, hle⟩ := nonDecreasing_snoc pre _ hmono
  have hinv := history_tracks_admitted limit window pre hm id (now - window)
    (fun x hx => sub_le_sub_right (hle x hx) window)
  have hl : (run (NewWindowRateLimiter limit window) pre).1.limit = limit :=
    run_limit (NewWindowRateLimiter limit window) pre
  have hw : (run (NewWindowRateLimiter limit window) pre).1.window = window :=
    run_window (NewWindowRateLimiter limit window) pre
  rw [allow_fst, decide_eq_true_eq, hl, hw, List.countP_eq_length_filter]
  have hcut : Time.Add now (-window) = now - window := by simp [Time.Add, sub_eq_add_neg]
  rw [hcut]
  simp only [Time.After] at hinv ⊢
  rw [hinv]

/-- C3 (exactness of the window decision). From a fresh limiter, for every limit and every
window (in particular every window > 0), after any sequence of `Allow` and `cleanup` calls
whose sampled times, together with the time `now` of the next call, are non-decreasing, the
call `Allow(id)` at `now` is admitted if and only if the number of earlier admitted
`Allow(id)` calls whose time is strictly later than `now - window` is strictly below
`limit`. -/
theorem allow_decision_exact (limit : Int) (window : Duration) (pre : List Call)
    (id : String) (now : Time) (hmono : NonDecreasing (pre ++ [Call.allow id now])) :
    ((run (NewWindowRateLimiter limit window) pre).1.Allow id now).1 = true ↔
      (((admittedTimes (run (NewWindowRateLimiter limit window) pre).2 id).countP
          fun t => decide (now - window < t) : Nat) : Int) < limit :=
  decision_iff_count limit window pre id now hmono

/-- C3, at an instance: limit 2, window 10, after admitted calls of `a` at 0 and 5 and a
`cleanup` at 7, the call at 10 sees one admitted call later than 10 - 10 and is admitted. -/
theorem allow_decision_exact_witness :
    NonDecreasing ([Call.allow "a" 0, Call.allow "a" 5, Call.cleanup 7] ++ [Call.allow "a" 10]) ∧
    (((run (NewWindowRateLimiter 2 10)
        [Call.allow "a" 0, Call.allow "a" 5, Call.cleanup 7]).1.Allow "a" 10).1 = true ↔
      (((admittedTimes (run (NewWindowRateLimiter 2 10)
          [Call.allow "a" 0, Call.allow "a" 5, Call.cleanup 7]).2 "a").countP
          fun t => decide ((10 : Time) - 10 < t) : Nat) : Int) < 2) :=
  ⟨by decide, allow_decision_exact 2 10 _ "a" 10 (by decide)⟩

/-- C2 (sliding-window rate guarantee). For every limit >= 0, every window (in particular
every window > 0), every sequence of `Allow` and `cleanup` calls with non-decreasing sampled
times run from a fresh limiter, every identifier and every instant `t`: at most `limit` of
the admitted `Allow` calls of that identifier have their call time in `(t - window, t]`. -/
theorem window_rate_guarantee (limit : Int) (window : Duration) (hlimit : 0 ≤ limit)
    (calls : List Call) (hmono : NonDecreasing calls) (id : String) (t : Time) :
    (((admittedTimes (run (NewWindowRateLimiter limit window) calls).2 id).countP
        fun u => decide (t - window < u ∧ u ≤ t) : Nat) : Int) ≤ limit := by
  induction calls using List.reverseRecOn with
  | nil => simpa [run_nil, admittedTimes_nil] using hlimit
  | append_singleton calls x ih =>
    obtain ⟨hm, -⟩ := nonDecreasing_snoc calls x hmono
    have ih' := ih hm
    rw [run_snoc]
    cases x with
    | cleanup now => exact ih'
    | allow id' now =>
      simp only [step]
      rw [admittedTimes_snoc]
      by_cases hnew : id' = id ∧
          ((run (NewWindowRateLimiter limit window) calls).1.Allow id' now).1 = true
      · obtain ⟨hid, hadm⟩ := hnew
        subst hid
        simp only [hadm, and_self, if_true, List.countP_append]
        by_cases hin : t - window < now ∧ now ≤ t
        · have hex := (decision_iff_count limit window calls id' now hmono).1 hadm
          have hsub := List.countP_mono_left
            (l := admittedTimes (run (NewWindowRateLimiter limit window) calls).2 id')
            (p := fun u => decide (t - window < u ∧ u ≤ t))
            (q := fun u => decide (now - window < u))
            (fun u _ hu => by
              simp only [decide_eq_true_eq] at hu ⊢
              linarith [hu.1, hin.2])
          simp only [List.countP_singleton, hin, and_self, decide_True, if_true]
          have hsub' := Int.ofNat_le.2 hsub
          push_cast
          linarith
        · simp only [List.countP_singleton, hin, decide_False, Bool.false_eq_true, if_false,
            Nat.add_zero]
          exact ih'
      · simp only [hnew, if_false, List.append_nil]
        exact ih'

/-- C2, at an instance: limit 2, window 10, four calls of `a` at 0, 5, 7 and 12; at most two
admitted calls fall in `(2, 12]`. -/
theorem window_rate_guarantee_witness :
    (0 : Int) ≤ 2 ∧
    NonDecreasing
      [Call.allow "a" 0, Call.allow "a" 5, Call.allow "a" 7, Call.allow "a" 12] ∧
    (((admittedTimes (run (NewWindowRateLimiter 2 10)
        [Call.allow "a" 0, Call.allow "a" 5, Call.allow "a" 7, Call.allow "a" 12]).2 "a").countP
        fun u => decide ((12 : Time) - 10 < u ∧ u ≤ 12) : Nat) : Int) ≤ 2 :=
  ⟨by decide, by decide, window_rate_guarantee 2 10 (by decide) _ (by decide) "a" 12⟩

/-- C1 (contract of `Allow`). With `P` the pruned history of `id`, the timestamps of
`requests[id]` that pass the prune test, in their original order: if `len(P) >= limit` then
`Allow` returns false and leaves the limiter exactly as it was; otherwise it returns true,
`requests[id]` becomes `P` followed by `now`, and every other identifier's entry and the two
settings are unchanged. -/
theorem allow_contract (wrl : WindowRateLimiter) (id : String) (now : Time) :
    (wrl.limit ≤ ((((wrl.requests.index id).filter
        fun t => Time.After t (Time.Add now (-wrl.window))).length : Nat) : Int) →
      wrl.Allow id now = (false, wrl)) ∧
    (((((wrl.requests.index id).filter
        fun t => Time.After t (Time.Add now (-wrl.window))).length : Nat) : Int) < wrl.limit →
      (wrl.Allow id now).1 = true ∧
      (wrl.Allow id now).2.requests.lookup id =
        some ((wrl.requests.index id).filter
          (fun t => Time.After t (Time.Add now (-wrl.window))) ++ [now]) ∧
      (∀ other : String, other ≠ id →
        (wrl.Allow id now).2.requests.lookup other = wrl.requests.lookup other) ∧
      (wrl.Allow id now).2.limit = wrl.limit ∧
      (wrl.Allow id now).2.window = wrl.window) := by
  constructor
  · intro h
    have hf : (wrl.Allow id now).1 = false := by
      rw [allow_fst, decide_eq_false_iff_not]
      exact not_lt.2 h
    exact Prod.ext hf (allow_denied wrl id now hf)
  · intro h
    have ht : (wrl.Allow id now).1 = true := by
      rw [allow_fst, decide_eq_true_eq]
      exact h
    exact ⟨ht, allow_admitted wrl id now ht, fun other ho => allow_lookup_ne wrl id other now ho,
      allow_limit wrl id now, allow_window wrl id now⟩

/-- C1, at two instances: with limit 0 the call on a fresh limiter is denied and nothing
changes; with limit 1 and window 10 it is admitted and the history of `a` becomes `[0]`. -/
theorem allow_contract_witness :
    (NewWindowRateLimiter 0 10).Allow "a" 0 = (false, NewWindowRateLimiter 0 10) ∧
    ((NewWindowRateLimiter 1 10).Allow "a" 0).1 = true ∧
    ((NewWindowRateLimiter 1 10).Allow "a" 0).2.requests.lookup "a" = some [0] :=
  ⟨(allow_contract (NewWindowRateLimiter 0 10) "a" 0).1 (by decide),
    ((allow_contract (NewWindowRateLimiter 1 10) "a" 0).2 (by decide)).1,
    ((allow_contract (NewWindowRateLimiter 1 10) "a" 0).2 (by decide)).2.1⟩

/-- Every stored timestamp is the sampled time of one of the calls made so far. -/
theorem stored_from_calls (limit : Int) (window : Duration) (calls : List Call) (id : String)
    (t : Time) (ht : t ∈ (run (NewWindowRateLimiter limit window) calls).1.requests.index id) :
    ∃ x ∈ calls, x.time = t := by
  induction calls using List.reverseRecOn with
  | nil => simp [run_nil, NewWindowRateLimiter, RequestMap.index] at ht
  | append_singleton calls x ih =>
    rw [run_snoc] at ht
    cases x with
    | cleanup now =>
      simp only [step, index_cleanup] at ht
      obtain ⟨y, hy, hyt⟩ := ih (List.mem_filter.1 ht).1
      exact ⟨y, by simp [hy], hyt⟩
    | allow id' now =>
      simp only [step] at ht
      by_cases hid : id' = id
      · subst hid
        cases hadm : ((run (NewWindowRateLimiter limit window) calls).1.Allow id' now).1 with
        | false =>
          rw [allow_denied _ _ _ hadm] at ht
          obtain ⟨y, hy, hyt⟩ := ih ht
          exact ⟨y, by simp [hy], hyt⟩
        | true =>
          have hst := allow_admitted _ _ _ hadm
          simp only [RequestMap.index, hst, Option.getD_some, List.mem_append,
            List.mem_singleton] at ht
          rcases ht with h | h
          · obtain ⟨y, hy, hyt⟩ := ih (List.mem_filter.1 h).1
            exact ⟨y, by simp [hy], hyt⟩
          · exact ⟨Call.allow id' now, by simp, h.symm⟩
      · rw [allow_index_ne _ _ _ _ (Ne.symm hid)] at ht
        obtain ⟨y, hy, hyt⟩ := ih ht
        exact ⟨y, by simp [hy], hyt⟩

/-- C4 as amended (window bounds of the prune). The prune of `Allow` and of `cleanup`, run
with the cutoff `now.Add(-window)`, keeps a stored timestamp `t` if and only if
`now - window < t`: the lower bound is strict, a timestamp equal to `now - window` is never
kept, and there is no test against `now`. On a limiter run from fresh with non-decreasing
sampled times no stored timestamp is later than the time `now` of the next call, so there
the prune of that call keeps `t` if and only if `now - window < t <= now`. -/
theorem prune_keeps_iff :
    (∀ (requests : List Time) (now : Time) (window : Duration) (t : Time),
      (t ∈ validRequests requests (Time.Add now (-window)) ↔
        t ∈ requests ∧ now - window < t) ∧
      now - window ∉ validRequests requests (Time.Add now (-window))) ∧
    (∀ (limit : Int) (window : Duration) (calls : List Call) (x : Call) (id : String)
      (t : Time), NonDecreasing (calls ++ [x]) →
      t ∈ (run (NewWindowRateLimiter limit window) calls).1.requests.index id →
      (t ∈ validRequests ((run (NewWindowRateLimiter limit window) calls).1.requests.index id)
          (Time.Add x.time (-window)) ↔ x.time - window < t ∧ t ≤ x.time)) := by
  have hcut : ∀ now window : Int, Time.Add now (-window) = now - window := by
    intro now window
    simp [Time.Add, sub_eq_add_neg]
  constructor
  · intro requests now window t
    rw [validRequests_eq_filter, hcut]
    simp [Time.After]
  · intro limit window calls x id t hmono ht
    obtain ⟨y, hy, hyt⟩ := stored_from_calls limit window calls id t ht
    have hle : t ≤ x.time := hyt ▸ (nonDecreasing_snoc calls x hmono).2 y hy
    rw [validRequests_eq_filter, hcut]
    simp [Time.After, ht, hle]

/-- C4 as amended, at an instance: limit 2, window 10, calls of `a` at 0 and 5; the prune
of a call at 12 keeps the stored 5, which lies in `(2, 12]`. -/
theorem prune_keeps_iff_witness :
    NonDecreasing ([Call.allow "a" 0, Call.allow "a" 5] ++ [Call.allow "a" 12]) ∧
    ((5 : Time) ∈ validRequests
        ((run (NewWindowRateLimiter 2 10)
          [Call.allow "a" 0, Call.allow "a" 5]).1.requests.index "a")
        (Time.Add (Call.allow "a" 12).time (-10)) ↔
      (Call.allow "a" 12).time - 10 < 5 ∧ (5 : Time) ≤ (Call.allow "a" 12).time) :=
  ⟨by decide, prune_keeps_iff.2 2 10 [Call.allow "a" 0, Call.allow "a" 5] (Call.allow "a" 12)
    "a" 5 (by decide) (by decide)⟩

/-- C4 as stated fails: with limit 1 and window 10, the request of `a` at 0 lies in
`[10 - 10, 10]`, yet the prune at 10 drops it: the call of `a` at 10 is admitted and only
`[10]` is stored, and a `cleanup` at 10 removes the entry of `a`. -/
theorem prune_boundary_counterexample :
    ((10 : Time) - 10 ≤ 0 ∧ (0 : Time) ≤ 10) ∧
    (0 : Time) ∈ ((run (NewWindowRateLimiter 1 10) [Call.allow "a" 0]).1.requests.index "a") ∧
    (0 : Time) ∉ validRequests
      ((run (NewWindowRateLimiter 1 10) [Call.allow "a" 0]).1.requests.index "a")
      (Time.Add 10 (-10)) ∧
    (run (NewWindowRateLimiter 1 10) [Call.allow "a" 0, Call.allow "a" 10]).2.map Event.admitted
      = [true, true] ∧
    (run (NewWindowRateLimiter 1 10) [Call.allow "a" 0, Call.allow "a" 10]).1.requests.lookup "a"
      = some [10] ∧
    (run (NewWindowRateLimiter 1 10) [Call.allow "a" 0, Call.cleanup 10]).1.requests.lookup "a"
      = none := by
  decide

/-- C5 (no stale timestamps after an access). For every limit and every trailing window
(`window >= 0`; a limiter with a non-positive window does not outlive its construction), in
every state reached from a fresh limiter by `Allow` and `cleanup` calls (whatever their
times, so in particular non-decreasing ones), right after any call `Allow(id)` at `now`,
admitted or denied, every timestamp of `requests[id]` is at least `now - window`: none is
older than `now - window`. -/
theorem no_stale_after_allow (limit : Int) (window : Duration) (hwindow : 0 ≤ window)
    (pre : List Call) (id : String) (now : Time) (t : Time)
    (ht : t ∈ ((run (NewWindowRateLimiter limit window) pre).1.Allow id now).2.requests.index id) :
    now - window ≤ t := by
  have hl : (run (NewWindowRateLimiter limit window) pre).1.limit = limit :=
    run_limit (NewWindowRateLimiter limit window) pre
  have hw : (run (NewWindowRateLimiter limit window) pre).1.window = window :=
    run_window (NewWindowRateLimiter limit window) pre
  have hcut : Time.Add now (-window) = now - window := by simp [Time.Add, sub_eq_add_neg]
  cases hadm : ((run (NewWindowRateLimiter limit window) pre).1.Allow id now).1 with
  | true =>
    have hst := allow_admitted _ _ _ hadm
    simp only [RequestMap.index, hst, Option.getD_some, List.mem_append, List.mem_filter,
      List.mem_singleton, hw, hcut, Time.After, decide_eq_true_eq] at ht
    rcases ht with ⟨-, h⟩ | h
    · exact le_of_lt h
    · rw [h]; linarith
  | false =>
    have hlen := index_length_le limit window pre id
    have hdec := hadm
    rw [allow_fst, decide_eq_false_iff_not, hl, hw, hcut, not_lt] at hdec
    rw [allow_denied _ _ _ hadm] at ht
    have hfl := List.length_filter_le (fun t => Time.After t (now - window))
      ((run (NewWindowRateLimiter limit window) pre).1.requests.index id)
    have hall : ∀ a ∈ (run (NewWindowRateLimiter limit window) pre).1.requests.index id,
        Time.After a (now - window) = true := by
      apply List.filter_length_eq_length.1
      rcases le_total limit 0 with h0 | h0
      · rw [max_eq_right h0] at hlen
        omega
      · rw [max_eq_left h0] at hlen
        omega
    have := hall t ht
    simp only [Time.After, decide_eq_true_eq] at this
    exact le_of_lt this

/-- C5, at an instance: limit 1, window 10, calls of `a` at 0 and 5 (the second denied);
after the denied call every stored timestamp of `a` is at least 5 - 10. -/
theorem no_stale_after_allow_witness :
    (0 : Duration) ≤ 10 ∧
    (0 : Time) ∈ ((run (NewWindowRateLimiter 1 10)
      [Call.allow "a" 0]).1.Allow "a" 5).2.requests.index "a" ∧
    (5 : Time) - 10 ≤ 0 :=
  ⟨by decide, by decide,
    no_stale_after_allow 1 10 (by decide) [Call.allow "a" 0] "a" 5 0 (by decide)⟩

/-- C6 (worked scenario). On a fresh limiter with limit 3 and window 1s, calls of one
identifier at 0, 0.1s and 0.2s are admitted, a fourth at 0.3s is denied, and a call at 1.05s
is admitted (times in nanoseconds). -/
theorem worked_scenario :
    (run (NewWindowRateLimiter 3 1000000000)
      [Call.allow "ip" 0, Call.allow "ip" 100000000, Call.allow "ip" 200000000,
        Call.allow "ip" 300000000, Call.allow "ip" 1050000000]).2
      = [⟨"ip", 0, true⟩, ⟨"ip", 100000000, true⟩, ⟨"ip", 200000000, true⟩,
          ⟨"ip", 300000000, false⟩, ⟨"ip", 1050000000, true⟩] := by
  decide

/-- C9 (contract of `cleanup`). For every limiter, instant `now` and identifier: an
identifier absent before is absent after; an identifier whose timestamps all fail the prune
test has no entry after; any other identifier is kept with exactly its timestamps that pass
the prune test, in their original order. The settings are unchanged. -/
theorem cleanup_contract (wrl : WindowRateLimiter) (now : Time) (id : String) :
    (wrl.cleanup now).requests.lookup id =
      (match wrl.requests.lookup id with
        | none => none
        | some rs =>
          if rs.filter (fun t => Time.After t (Time.Add now (-wrl.window))) = [] then none
          else some (rs.filter fun t => Time.After t (Time.Add now (-wrl.window)))) ∧
    (wrl.cleanup now).limit = wrl.limit ∧ (wrl.cleanup now).window = wrl.window := by
  refine ⟨?_, rfl, rfl⟩
  rw [lookup_cleanup]
  cases wrl.requests.lookup id with
  | none => rfl
  | some rs =>
    simp only [Option.some_bind, pruned, validRequests_eq_filter, List.length_eq_zero]

theorem foldl_allow_decisions (id : String) :
    ∀ (times : List Time) (st : WindowRateLimiter × List Event),
      (∀ now ∈ times, ∀ u ∈ st.1.requests.index id ++ times, now - st.1.window < u) →
      ((times.map (Call.allow id)).foldl step st).2.map Event.admitted =
        st.2.map Event.admitted ++ (List.range times.length).map
          (fun i => decide ((((st.1.requests.index id).length + i : Nat) : Int) < st.1.limit))
  | [], st, _ => by simp
  | now :: rest, st, h => by
    have hcut : Time.Add now (-st.1.window) = now - st.1.window := by
      simp [Time.Add, sub_eq_add_neg]
    have hkeep : (st.1.requests.index id).filter
        (fun t => Time.After t (Time.Add now (-st.1.window))) = st.1.requests.index id := by
      rw [List.filter_eq_self]
      intro u hu
      simp only [Time.After, hcut, decide_eq_true_eq]
      exact h now (by simp) u (by simp [hu])
    have hdec := allow_fst st.1 id now
    rw [hkeep] at hdec
    rw [List.map_cons, List.foldl_cons, List.length_cons, List.range_succ_eq_map, List.map_cons,
      List.map_map]
    cases hadm : (st.1.Allow id now).1 with
    | false =>
      have hst := allow_denied st.1 id now hadm
      have hno : ¬ (((st.1.requests.index id).length : Nat) : Int) < st.1.limit := by
        rw [hadm] at hdec
        exact of_decide_eq_false hdec.symm
      have ih := foldl_allow_decisions id rest (step st (Call.allow id now)) (by
        simp only [step, hst]
        intro now' hn u hu
        exact h now' (by simp [hn]) u (by
          rcases List.mem_append.1 hu with hu | hu
          · simp [hu]
          · simp [hu]))
      rw [ih]
      simp only [step, hst, hadm, List.map_append, List.map_cons, List.map_nil,
        List.append_assoc, List.singleton_append, Nat.add_zero]
      congr 2
      · exact (decide_eq_false hno).symm
      · apply List.map_congr_left
        intro i _
        have h1 : ¬ ((((st.1.requests.index id).length + i : Nat) : Int) < st.1.limit) := by
          push_cast; push_cast at hno; omega
        have h2 : ¬ ((((st.1.requests.index id).length + (i + 1) : Nat) : Int) < st.1.limit) := by
          push_cast; push_cast at hno; omega
        simp only [Function.comp, Nat.succ_eq_add_one]
        rw [decide_eq_false h1, decide_eq_false h2]
    | true =>
      have hlk := allow_admitted st.1 id now hadm
      rw [hkeep] at hlk
      have hidx : (st.1.Allow id now).2.requests.index id = st.1.requests.index id ++ [now] := by
        simp [RequestMap.index, hlk]
      have hyes : (((st.1.requests.index id).length : Nat) : Int) < st.1.limit := by
        rw [hadm] at hdec
        exact of_decide_eq_true hdec.symm
      have ih := foldl_allow_decisions id rest (step st (Call.allow id now)) (by
        simp only [step, hidx, allow_window]
        intro now' hn u hu
        exact h now' (by simp [hn]) u (by
          simp only [List.append_assoc, List.singleton_append] at hu
          exact hu))
      rw [ih]
      simp only [step, hidx, hadm, allow_limit, List.map_append, List.map_cons, List.map_nil,
        List.append_assoc, List.singleton_append, Nat.add_zero, List.length_append,
        List.length_singleton]
      congr 2
      · exact (decide_eq_true hyes).symm
      · apply List.map_congr_left
        intro i _
        simp only [Function.comp, Nat.succ_eq_add_one]
        congr 1
        rw [Nat.add_assoc, Nat.add_comm 1 i]

theorem range_map_decide_lt (N : Nat) :
    (List.range (N + 1)).map (fun i => decide (((0 + i : Nat) : Int) < (N : Int)))
      = List.replicate N true ++ [false] := by
  rw [List.range_succ, List.map_append]
  congr 1
  · rw [List.eq_replicate_iff]
    refine ⟨by simp, ?_⟩
    intro b hb
    rw [List.mem_map] at hb
    obtain ⟨i, hi, rfl⟩ := hb
    rw [List.mem_range] at hi
    simp only [Nat.zero_add, Nat.cast_lt, decide_eq_true_eq]
    exact hi
  · simp

/-- C7 (fresh-identifier capacity). For every limit `N >= 0`, every limiter with that limit
and every identifier without an entry in it: `N + 1` consecutive `Allow` calls for the
identifier, at non-decreasing times that all lie less than one window after the first call
(so the window is positive), admit exactly the first `N` calls and deny the last. -/
theorem fresh_identifier_capacity (wrl : WindowRateLimiter) (id : String) (N : Nat)
    (t₀ : Time) (rest : List Time)
    (hlimit : wrl.limit = (N : Int))
    (hfresh : wrl.requests.lookup id = none)
    (hlen : (t₀ :: rest).length = N + 1)
    (hsorted : (t₀ :: rest).Sorted (· ≤ ·))
    (hwithin : ∀ t ∈ t₀ :: rest, t < t₀ + wrl.window) :
    (run wrl ((t₀ :: rest).map (Call.allow id))).2.map Event.admitted
      = List.replicate N true ++ [false] := by
  have hidx : wrl.requests.index id = [] := by simp [RequestMap.index, hfresh]
  have hge : ∀ u ∈ t₀ :: rest, t₀ ≤ u := by
    intro u hu
    rcases List.mem_cons.1 hu with rfl | hu
    · exact le_refl _
    · exact List.rel_of_sorted_cons hsorted u hu
  have := foldl_allow_decisions id (t₀ :: rest) (wrl, []) (by
    intro now hn u hu
    simp only [hidx, List.nil_append] at hu
    have h1 := hwithin now hn
    have h2 := hge u hu
    linarith)
  unfold run
  rw [this]
  simp only [hidx, hlimit, hlen, List.map_nil, List.nil_append, List.length_nil]
  exact range_map_decide_lt N

/-- C7, at an instance: limit 2 and window 10, calls of the new identifier `a` at 0, 3 and
9 give the decisions true, true, false. -/
theorem fresh_identifier_capacity_witness :
    (run (NewWindowRateLimiter 2 10) (([0, 3, 9] : List Time).map (Call.allow "a"))).2.map
      Event.admitted = List.replicate 2 true ++ [false] :=
  fresh_identifier_capacity (NewWindowRateLimiter 2 10) "a" 2 0 [3, 9] rfl (by decide)
    (by decide) (by decide) (by decide)

theorem allow_lookup_congr (w₁ w₂ : WindowRateLimiter) (id : String) (now : Time)
    (hr : w₁.requests.lookup id = w₂.requests.lookup id) (hl : w₁.limit = w₂.limit)
    (hw : w₁.window = w₂.window) :
    (w₁.Allow id now).1 = (w₂.Allow id now).1 ∧
    (w₁.Allow id now).2.requests.lookup id = (w₂.Allow id now).2.requests.lookup id := by
  have hidx : w₁.requests.index id = w₂.requests.index id := by
    simp [RequestMap.index, hr]
  have hd : (w₁.Allow id now).1 = (w₂.Allow id now).1 := by
    rw [allow_fst, allow_fst, hidx, hl, hw]
  refine ⟨hd, ?_⟩
  cases h2 : (w₂.Allow id now).1 with
  | false =>
    rw [allow_denied _ _ _ h2, allow_denied _ _ _ (hd.trans h2)]
    exact hr
  | true =>
    rw [allow_admitted _ _ _ h2, allow_admitted _ _ _ (hd.trans h2), hidx, hw]

/-- Dropping the `Allow(a)` calls from a trace changes neither the entries nor the records of
the other identifiers. -/
theorem run_filter_agree (wrl : WindowRateLimiter) (a b : String) (hab : a ≠ b)
    (calls : List Call) :
    (∀ id, id ≠ a → (run wrl calls).1.requests.lookup id
        = (run wrl (calls.filter (notAllowFor a))).1.requests.lookup id) ∧
    eventsFor (run wrl calls).2 b = eventsFor (run wrl (calls.filter (notAllowFor a))).2 b := by
  induction calls using List.reverseRecOn with
  | nil => exact ⟨fun _ _ => rfl, rfl⟩
  | append_singleton calls x ih =>
    obtain ⟨ihr, ihe⟩ := ih
    have hl : (run wrl calls).1.limit = (run wrl (calls.filter (notAllowFor a))).1.limit := by
      rw [run_limit, run_limit]
    have hw : (run wrl calls).1.window = (run wrl (calls.filter (notAllowFor a))).1.window := by
      rw [run_window, run_window]
    rw [List.filter_append, run_snoc]
    cases x with
    | cleanup now =>
      have hf : List.filter (notAllowFor a) [Call.cleanup now] = [Call.cleanup now] := rfl
      rw [hf, run_snoc]
      refine ⟨fun id hid => ?_, ihe⟩
      simp only [step]
      rw [lookup_cleanup, lookup_cleanup, ihr id hid, hw]
    | allow id' now =>
      by_cases hid' : id' = a
      · subst hid'
        have hf : List.filter (notAllowFor id') [Call.allow id' now] = [] := by
          simp [notAllowFor]
        rw [hf, List.append_nil]
        constructor
        · intro id hid
          simp only [step]
          rw [allow_lookup_ne _ _ _ _ hid]
          exact ihr id hid
        · simp only [step, eventsFor, List.filter_append]
          have : List.filter (fun e : Event => decide (e.identifier = b))
              [{ identifier := id', now := now,
                 admitted := ((run wrl calls).1.Allow id' now).1 }] = [] := by
            simp [hab]
          rw [this, List.append_nil]
          exact ihe
      · have hf : List.filter (notAllowFor a) [Call.allow id' now] = [Call.allow id' now] := by
          simp [notAllowFor, hid']
        rw [hf, run_snoc]
        obtain ⟨hd, hlk⟩ := allow_lookup_congr _ _ id' now (ihr id' hid') hl hw
        constructor
        · intro id hid
          simp only [step]
          by_cases h : id = id'
          · subst h
            exact hlk
          · rw [allow_lookup_ne _ _ _ _ h, allow_lookup_ne _ _ _ _ h]
            exact ihr id hid
        · simp only [step, eventsFor, List.filter_append]
          simp only [eventsFor] at ihe
          rw [ihe, hd]

/-- C8 (isolation between identifiers). For distinct identifiers `a` and `b`: the decision
of `Allow(b)` at `now` is the same on any two limiters that agree on `requests[b]`, `limit`
and `window`; `Allow(a)` leaves the entry of `b` unchanged; hence two runs from the same
limiter that differ only in their `Allow(a)` calls give the same sequence of `Allow(b)`
records (identifier, time and decision). -/
theorem isolation (a b : String) (hab : a ≠ b) :
    (∀ (w₁ w₂ : WindowRateLimiter) (now : Time),
      w₁.requests.index b = w₂.requests.index b → w₁.limit = w₂.limit →
      w₁.window = w₂.window → (w₁.Allow b now).1 = (w₂.Allow b now).1) ∧
    (∀ (wrl : WindowRateLimiter) (now : Time),
      (wrl.Allow a now).2.requests.lookup b = wrl.requests.lookup b) ∧
    (∀ (wrl : WindowRateLimiter) (calls₁ calls₂ : List Call),
      calls₁.filter (notAllowFor a) = calls₂.filter (notAllowFor a) →
      eventsFor (run wrl calls₁).2 b = eventsFor (run wrl calls₂).2 b) := by
  refine ⟨?_, ?_, ?_⟩
  · intro w₁ w₂ now hidx hl hw
    rw [allow_fst, allow_fst, hidx, hl, hw]
  · intro wrl now
    exact allow_lookup_ne wrl a b now (Ne.symm hab)
  · intro wrl calls₁ calls₂ h
    rw [(run_filter_agree wrl a b hab calls₁).2, (run_filter_agree wrl a b hab calls₂).2, h]

/-- C8, at an instance: limit 1 and window 10; a run in which `a` floods the limiter and a
run without any call of `a` give `b` the same records. -/
theorem isolation_witness :
    eventsFor (run (NewWindowRateLimiter 1 10)
        [Call.allow "a" 0, Call.allow "b" 1, Call.allow "a" 2, Call.allow "a" 3,
          Call.allow "b" 4, Call.cleanup 12, Call.allow "b" 13]).2 "b"
      = eventsFor (run (NewWindowRateLimiter 1 10)
        [Call.allow "b" 1, Call.allow "b" 4, Call.cleanup 12, Call.allow "b" 13]).2 "b" :=
  (isolation "a" "b" (by decide)).2.2 (NewWindowRateLimiter 1 10) _ _ (by decide)

/-! ## The per-IP registry -/

/-- C10 (contract of `GetLimiter`, sequential). If `ips` holds a limiter for `ip`, the call
returns that instance and changes nothing. Otherwise it returns a newly allocated limiter
(an address not in use before) configured with the registry's `r` and `b`; the limiters
allocated before are untouched, `ips` maps `ip` to the new instance, every other entry and
the settings are unchanged. Two successive calls for the same `ip` return the same
instance. -/
theorem getLimiter_contract (i : IPRateLimiter) (ip : String) (heap : Heap) :
    (∀ p : LimiterRef, i.ips.lookup ip = some p → i.GetLimiter ip heap = (p, i, heap)) ∧
    (i.ips.lookup ip = none →
      heap[(i.GetLimiter ip heap).1]? = none ∧
      (i.GetLimiter ip heap).2.2[(i.GetLimiter ip heap).1]?
        = some { limit := i.r, burst := i.b } ∧
      (∀ q : LimiterRef, q < heap.length → (i.GetLimiter ip heap).2.2[q]? = heap[q]?) ∧
      (i.GetLimiter ip heap).2.1.ips.lookup ip = some (i.GetLimiter ip heap).1 ∧
      (∀ other : String, other ≠ ip →
        (i.GetLimiter ip heap).2.1.ips.lookup other = i.ips.lookup other) ∧
      (i.GetLimiter ip heap).2.1.r = i.r ∧ (i.GetLimiter ip heap).2.1.b = i.b) ∧
    ((i.GetLimiter ip heap).2.1.GetLimiter ip (i.GetLimiter ip heap).2.2).1
      = (i.GetLimiter ip heap).1 := by
  refine ⟨?_, ?_, ?_⟩
  · intro p hp
    simp [IPRateLimiter.GetLimiter, hp]
  · intro hnone
    have hres : i.GetLimiter ip heap = (heap.length,
        { i with ips := i.ips.insert ip heap.length },
        heap ++ [{ limit := i.r, burst := i.b }]) := by
      simp [IPRateLimiter.GetLimiter, hnone, IPRateLimiter.AddIP, NewLimiter]
    rw [hres]
    refine ⟨by simp, by simp, ?_, by simp, ?_, rfl, rfl⟩
    · intro q hq
      exact List.getElem?_append_left hq
    · intro other ho
      exact AList.lookup_insert_ne ho
  · cases h : i.ips.lookup ip with
    | some p => simp [IPRateLimiter.GetLimiter, h]
    | none => simp [IPRateLimiter.GetLimiter, h, IPRateLimiter.AddIP, NewLimiter]

/-- C10, at an instance: on a fresh registry with rate 5 and burst 10, the first call for an
address allocates limiter 0 with these settings and registers it; on the registry so
obtained the call returns limiter 0 again and changes nothing. -/
theorem getLimiter_contract_witness :
    ((NewIPRateLimiter 5 10).GetLimiter "10.0.0.1" []).2.2[
        ((NewIPRateLimiter 5 10).GetLimiter "10.0.0.1" []).1]?
      = some { limit := 5, burst := 10 } ∧
    ((NewIPRateLimiter 5 10).GetLimiter "10.0.0.1" []).2.1.GetLimiter "10.0.0.1"
        ((NewIPRateLimiter 5 10).GetLimiter "10.0.0.1" []).2.2
      = (0, ((NewIPRateLimiter 5 10).GetLimiter "10.0.0.1" []).2.1,
          ((NewIPRateLimiter 5 10).GetLimiter "10.0.0.1" []).2.2) :=
  ⟨((getLimiter_contract (NewIPRateLimiter 5 10) "10.0.0.1" []).2.1 (by decide)).2.1,
    (getLimiter_contract ((NewIPRateLimiter 5 10).GetLimiter "10.0.0.1" []).2.1 "10.0.0.1"
      ((NewIPRateLimiter 5 10).GetLimiter "10.0.0.1" []).2.2).1 0 (by decide)⟩

/-! ## Invariants of the reachable states -/

theorem index_sorted (limit : Int) (window : Duration) (calls : List Call)
    (hmono : NonDecreasing calls) (id : String) :
    ((run (NewWindowRateLimiter limit window) calls).1.requests.index id).Sorted (· ≤ ·) := by
  induction calls using List.reverseRecOn with
  | nil => simp [run_nil, NewWindowRateLimiter, RequestMap.index]
  | append_singleton calls x ih =>
    obtain ⟨hm, hle⟩ := nonDecreasing_snoc calls x hmono
    have ih' := ih hm
    rw [run_snoc]
    cases x with
    | cleanup now =>
      simp only [step, index_cleanup]
      exact List.Pairwise.filter _ ih'
    | allow id' now =>
      simp only [step]
      by_cases hid : id' = id
      · subst hid
        cases hadm : ((run (NewWindowRateLimiter limit window) calls).1.Allow id' now).1 with
        | false =>
          rw [allow_denied _ _ _ hadm]
          exact ih'
        | true =>
          have hst := allow_admitted _ _ _ hadm
          simp only [RequestMap.index, hst, Option.getD_some]
          unfold List.Sorted
          rw [List.pairwise_append]
          refine ⟨List.Pairwise.filter _ ih', List.pairwise_singleton _ _, ?_⟩
          intro t ht u hu
          rw [List.mem_singleton] at hu
          subst hu
          obtain ⟨y, hy, hyt⟩ :=
            stored_from_calls limit window calls id' t (List.mem_filter.1 ht).1
          exact hyt ▸ hle y hy
      · rw [allow_index_ne _ _ _ _ (Ne.symm hid)]
        exact ih'

theorem index_of_lookup (m : RequestMap) (id : String) (rs : List Time)
    (h : m.lookup id = some rs) : m.index id = rs := by
  simp [RequestMap.index, h]

/-- C18 (chronological history). In every state reached from a fresh limiter by `Allow` and
`cleanup` calls whose sampled times are non-decreasing, every stored history `requests[id]`
is sorted in non-decreasing timestamp order. -/
theorem history_chronological (limit : Int) (window : Duration) (calls : List Call)
    (hmono : NonDecreasing calls) (id : String) (rs : List Time)
    (hrs : (run (NewWindowRateLimiter limit window) calls).1.requests.lookup id = some rs) :
    rs.Sorted (· ≤ ·) := by
  have h := index_sorted limit window calls hmono id
  rw [index_of_lookup _ _ _ hrs] at h
  exact h

/-- C18, at an instance: limit 3, window 10, calls of `a` at 0, 4, 4 and 12 with a `cleanup`
at 11; the stored history `[4, 4, 12]` is sorted. -/
theorem history_chronological_witness :
    NonDecreasing [Call.allow "a" 0, Call.allow "a" 4, Call.allow "a" 4, Call.cleanup 11,
      Call.allow "a" 12] ∧
    (run (NewWindowRateLimiter 3 10) [Call.allow "a" 0, Call.allow "a" 4, Call.allow "a" 4,
      Call.cleanup 11, Call.allow "a" 12]).1.requests.lookup "a" = some [4, 4, 12] ∧
    ([4, 4, 12] : List Time).Sorted (· ≤ ·) :=
  ⟨by decide, by decide,
    history_chronological 3 10
      [Call.allow "a" 0, Call.allow "a" 4, Call.allow "a" 4, Call.cleanup 11, Call.allow "a" 12]
      (by decide) "a" [4, 4, 12] (by decide)⟩

theorem lookup_ne_nil (limit : Int) (window : Duration) (calls : List Call) (id : String) :
    (run (NewWindowRateLimiter limit window) calls).1.requests.lookup id ≠ some [] := by
  induction calls using List.reverseRecOn generalizing id with
  | nil => simp [run_nil, NewWindowRateLimiter]
  | append_singleton calls x ih =>
    rw [run_snoc]
    cases x with
    | cleanup now =>
      simp only [step]
      rw [lookup_cleanup]
      cases (run (NewWindowRateLimiter limit window) calls).1.requests.lookup id with
      | none => simp
      | some rs =>
        simp only [Option.some_bind, pruned]
        split
        · simp
        · rename_i hne
          intro h
          rw [Option.some.injEq] at h
          exact hne (by rw [h]; rfl)
    | allow id' now =>
      simp only [step]
      by_cases hid : id' = id
      · subst hid
        cases hadm : ((run (NewWindowRateLimiter limit window) calls).1.Allow id' now).1 with
        | false =>
          rw [allow_denied _ _ _ hadm]
          exact ih id'
        | true =>
          rw [allow_admitted _ _ _ hadm]
          simp
      · rw [allow_lookup_ne _ _ _ _ (Ne.symm hid)]
        exact ih id

/-- C19 (no empty entries). In every state reached from a fresh limiter by `Allow` and
`cleanup` calls, no identifier is mapped to an empty history. Moreover, when the pruned
history of an identifier at `now` is empty: after `cleanup` at `now` the identifier is
absent, and after `Allow` for it at `now` it is either absent or the call was admitted and
the identifier holds exactly the one new timestamp `now`. -/
theorem no_empty_entries (limit : Int) (window : Duration) (calls : List Call) (id : String) :
    (run (NewWindowRateLimiter limit window) calls).1.requests.lookup id ≠ some [] ∧
    (∀ now : Time,
      ((run (NewWindowRateLimiter limit window) calls).1.requests.index id).filter
        (fun t => Time.After t (Time.Add now (-window))) = [] →
      ((run (NewWindowRateLimiter limit window) calls).1.cleanup now).requests.lookup id = none ∧
      ((((run (NewWindowRateLimiter limit window) calls).1.Allow id now).2.requests.lookup id
          = none) ∨
        ((((run (NewWindowRateLimiter limit window) calls).1.Allow id now).1 = true) ∧
          (((run (NewWindowRateLimiter limit window) calls).1.Allow id now).2.requests.lookup id
            = some [now])))) := by
  have hl : (run (NewWindowRateLimiter limit window) calls).1.limit = limit :=
    run_limit (NewWindowRateLimiter limit window) calls
  have hw : (run (NewWindowRateLimiter limit window) calls).1.window = window :=
    run_window (NewWindowRateLimiter limit window) calls
  have hne := lookup_ne_nil limit window calls id
  refine ⟨hne, ?_⟩
  intro now hP
  constructor
  · have hidx := index_cleanup (run (NewWindowRateLimiter limit window) calls).1 now id
    rw [hw, hP] at hidx
    have hne' := lookup_ne_nil limit window (calls ++ [Call.cleanup now]) id
    rw [run_snoc] at hne'
    simp only [step] at hne'
    cases hlk : ((run (NewWindowRateLimiter limit window) calls).1.cleanup now).requests.lookup id
      with
    | none => rfl
    | some rs =>
      rw [index_of_lookup _ _ _ hlk] at hidx
      rw [hlk, hidx] at hne'
      exact absurd rfl hne'
  · cases hadm : ((run (NewWindowRateLimiter limit window) calls).1.Allow id now).1 with
    | true =>
      right
      refine ⟨rfl, ?_⟩
      rw [allow_admitted _ _ _ hadm, hw, hP]
      rfl
    | false =>
      left
      rw [allow_denied _ _ _ hadm]
      have hdec := hadm
      rw [allow_fst, decide_eq_false_iff_not, hl, hw, hP, not_lt] at hdec
      have hlen := index_length_le limit window calls id
      have h0 : limit ≤ 0 := by simpa using hdec
      rw [max_eq_right h0] at hlen
      cases hlk : (run (NewWindowRateLimiter limit window) calls).1.requests.lookup id with
      | none => rfl
      | some rs =>
        rw [index_of_lookup _ _ _ hlk] at hlen
        have : rs = [] := List.length_eq_zero.1 (by omega)
        rw [hlk, this] at hne
        exact absurd rfl hne

/-- C19, at an instance: limit 1, window 10, after a call of `a` at 0 the pruned history of
`a` at 20 is empty; a `cleanup` at 20 removes the entry and an `Allow` at 20 leaves
exactly `[20]`. -/
theorem no_empty_entries_witness :
    ((run (NewWindowRateLimiter 1 10) [Call.allow "a" 0]).1.cleanup 20).requests.lookup "a"
      = none ∧
    (((run (NewWindowRateLimiter 1 10) [Call.allow "a" 0]).1.Allow "a" 20).2.requests.lookup "a"
        = none ∨
      (((run (NewWindowRateLimiter 1 10) [Call.allow "a" 0]).1.Allow "a" 20).1 = true ∧
        ((run (NewWindowRateLimiter 1 10) [Call.allow "a" 0]).1.Allow "a" 20).2.requests.lookup
          "a" = some [20])) :=
  (no_empty_entries 1 10 [Call.allow "a" 0] "a").2 20 (by decide)

theorem run_nonpositive_limit (limit : Int) (window : Duration) (hlimit : limit ≤ 0)
    (calls : List Call) :
    (run (NewWindowRateLimiter limit window) calls).1 = NewWindowRateLimiter limit window ∧
    ∀ e ∈ (run (NewWindowRateLimiter limit window) calls).2, e.admitted = false := by
  induction calls using List.reverseRecOn with
  | nil => exact ⟨rfl, by simp [run_nil]⟩
  | append_singleton calls x ih =>
    obtain ⟨hst, hlog⟩ := ih
    rw [run_snoc]
    cases x with
    | cleanup now =>
      simp only [step, hst]
      exact ⟨rfl, hlog⟩
    | allow id now =>
      have hden : ((NewWindowRateLimiter limit window).Allow id now).1 = false := by
        rw [allow_fst, decide_eq_false_iff_not, not_lt]
        simp only [NewWindowRateLimiter]
        have : (0 : Int) ≤ _ := Int.ofNat_nonneg
          ((List.filter (fun t => Time.After t (Time.Add now (-window)))
            ((∅ : RequestMap).index id)).length)
        exact le_trans hlimit this
      simp only [step, hst]
      refine ⟨allow_denied _ _ _ hden, ?_⟩
      intro e he
      rcases List.mem_append.1 he with he | he
      · exact hlog e he
      · rw [List.mem_singleton] at he
        rw [he]
        exact hden

/-- C20 (bounded history). In every state reached from a fresh limiter by `Allow` and
`cleanup` calls, every stored history has length at most `max(limit, 0)`; with `limit <= 0`
every `Allow` returns false and the limiter, its `requests` map included, stays as
constructed: the map is empty forever. -/
theorem history_bounded (limit : Int) (window : Duration) (calls : List Call) :
    (∀ (id : String) (rs : List Time),
      (run (NewWindowRateLimiter limit window) calls).1.requests.lookup id = some rs →
      ((rs.length : Nat) : Int) ≤ max limit 0) ∧
    (limit ≤ 0 →
      (∀ e ∈ (run (NewWindowRateLimiter limit window) calls).2, e.admitted = false) ∧
      (run (NewWindowRateLimiter limit window) calls).1 = NewWindowRateLimiter limit window ∧
      (run (NewWindowRateLimiter limit window) calls).1.requests.entries = []) := by
  constructor
  · intro id rs hrs
    have h := index_length_le limit window calls id
    rw [index_of_lookup _ _ _ hrs] at h
    exact h
  · intro hlimit
    obtain ⟨hst, hlog⟩ := run_nonpositive_limit limit window hlimit calls
    refine ⟨hlog, hst, ?_⟩
    rw [hst]
    rfl

/-- C20, at an instance: limit 2 and window 10 keep the history of `a` at length 2 after
three calls; limit 0 denies the two calls made and leaves the map empty. -/
theorem history_bounded_witness :
    ((([3, 5] : List Time).length : Nat) : Int) ≤ max 2 0 ∧
    ((∀ e ∈ (run (NewWindowRateLimiter 0 10) [Call.allow "a" 0, Call.allow "b" 1]).2,
        e.admitted = false) ∧
      (run (NewWindowRateLimiter 0 10) [Call.allow "a" 0, Call.allow "b" 1]).1
        = NewWindowRateLimiter 0 10 ∧
      (run (NewWindowRateLimiter 0 10)
        [Call.allow "a" 0, Call.allow "b" 1]).1.requests.entries = []) :=
  ⟨(history_bounded 2 10 [Call.allow "a" 3, Call.allow "a" 5, Call.allow "a" 6]).1 "a" [3, 5]
      (by decide),
    (history_bounded 0 10 [Call.allow "a" 0, Call.allow "b" 1]).2 (by decide)⟩

/-! ## The sweep of the per-IP registry -/

theorem lookup_foldl_cleanupStaleEntry (toFloat64 : Int → Rat) (Tokens : LimiterRef → Rat)
    (b : Int) (ip : String) :
    ∀ (es : List (Sigma fun _ : String => LimiterRef))
      (m : AList (fun _ : String => LimiterRef)), es.NodupKeys →
      (∀ l, es.dlookup ip = some l → m.lookup ip = some l) →
      (es.foldl (cleanupStaleEntry toFloat64 Tokens b) m).lookup ip =
        match es.dlookup ip with
        | some l => if Tokens l = toFloat64 b then none else some l
        | none => m.lookup ip
  | [], m, _, _ => by simp
  | e :: es, m, hnd, hm => by
    obtain ⟨k, v⟩ := e
    rw [List.nodupKeys_cons] at hnd
    by_cases h : ip = k
    · subst h
      have hn : List.dlookup ip es = none := List.dlookup_eq_none.2 hnd.1
      have hmv : m.lookup ip = some v := hm v (by rw [List.dlookup_cons_eq])
      rw [List.foldl_cons, lookup_foldl_cleanupStaleEntry toFloat64 Tokens b ip es _ hnd.2
        (by rw [hn]; intro l hl; cases hl), hn, List.dlookup_cons_eq]
      unfold cleanupStaleEntry
      by_cases ht : Tokens v = toFloat64 b
      · simp [ht]
      · simp [ht, hmv]
    · have hstep : (cleanupStaleEntry toFloat64 Tokens b m ⟨k, v⟩).lookup ip
          = m.lookup ip := by
        unfold cleanupStaleEntry
        split
        · exact AList.lookup_erase_ne h
        · rfl
      rw [List.foldl_cons, lookup_foldl_cleanupStaleEntry toFloat64 Tokens b ip es _ hnd.2
        (by
          intro l hl
          rw [hstep]
          exact hm l (by rw [List.dlookup_cons_ne _ _ h]; exact hl)),
        List.dlookup_cons_ne _ _ h, hstep]

/-- The entry of an address after the sweep. -/
theorem lookup_cleanupStaleEntries (i : IPRateLimiter) (toFloat64 : Int → Rat)
    (Tokens : LimiterRef → Rat) (ip : String) :
    (i.CleanupStaleEntries toFloat64 Tokens).ips.lookup ip =
      (match i.ips.lookup ip with
        | none => none
        | some limiter => if Tokens limiter = toFloat64 i.b then none else some limiter) := by
  unfold IPRateLimiter.CleanupStaleEntries
  simp only
  rw [lookup_foldl_cleanupStaleEntry toFloat64 Tokens i.b ip _ _ i.ips.nodupKeys
    (fun l hl => hl)]
  unfold AList.lookup
  cases List.dlookup ip i.ips.entries <;> rfl

/-- C12 (contract of `CleanupStaleEntries`). For every registry, every reading `Tokens` of
the limiters' token counts and every conversion `float64(...)`: after the sweep an address
is bound to the same limiter instance as before when that limiter's token count differs from
the burst as the code compares it, `float64(b)`; it has no entry when the count equals
`float64(b)`; and an address without an entry before has none after. Whenever the conversion
of `b` is exact (every `b` of absolute value at most 2^53), this is the comparison of the
token count with `b` itself. The settings are unchanged. -/
theorem cleanupStaleEntries_contract (i : IPRateLimiter) (toFloat64 : Int → Rat)
    (Tokens : LimiterRef → Rat) (ip : String) :
    (i.CleanupStaleEntries toFloat64 Tokens).ips.lookup ip =
      (match i.ips.lookup ip with
        | none => none
        | some limiter => if Tokens limiter = toFloat64 i.b then none else some limiter) ∧
    (toFloat64 i.b = (i.b : Rat) →
      (i.CleanupStaleEntries toFloat64 Tokens).ips.lookup ip =
        (match i.ips.lookup ip with
          | none => none
          | some limiter => if Tokens limiter = (i.b : Rat) then none else some limiter)) ∧
    (i.CleanupStaleEntries toFloat64 Tokens).r = i.r ∧
    (i.CleanupStaleEntries toFloat64 Tokens).b = i.b := by
  refine ⟨lookup_cleanupStaleEntries i toFloat64 Tokens ip, ?_, rfl, rfl⟩
  intro hexact
  rw [lookup_cleanupStaleEntries, hexact]

/-- C12, at an instance: burst 10, converted exactly; the address whose limiter holds 10
tokens is removed, the one whose limiter holds 7 keeps its limiter. -/
theorem cleanupStaleEntries_contract_witness :
    ((((NewIPRateLimiter 5 10).GetLimiter "10.0.0.1" []).2.1.GetLimiter "10.0.0.2"
        ((NewIPRateLimiter 5 10).GetLimiter "10.0.0.1" []).2.2).2.1.CleanupStaleEntries
        (fun n => (n : Rat)) (fun l => if l = 0 then 10 else 7)).ips.lookup "10.0.0.1"
      = (match (((NewIPRateLimiter 5 10).GetLimiter "10.0.0.1" []).2.1.GetLimiter "10.0.0.2"
          ((NewIPRateLimiter 5 10).GetLimiter "10.0.0.1" []).2.2).2.1.ips.lookup "10.0.0.1" with
        | none => none
        | some limiter =>
          if (fun l : LimiterRef => if l = 0 then (10 : Rat) else 7) limiter
              = ((((NewIPRateLimiter 5 10).GetLimiter "10.0.0.1" []).2.1.GetLimiter "10.0.0.2"
                ((NewIPRateLimiter 5 10).GetLimiter "10.0.0.1" []).2.2).2.1.b : Rat)
          then none else some limiter) :=
  (cleanupStaleEntries_contract
    (((NewIPRateLimiter 5 10).GetLimiter "10.0.0.1" []).2.1.GetLimiter "10.0.0.2"
      ((NewIPRateLimiter 5 10).GetLimiter "10.0.0.1" []).2.2).2.1
    (fun n => (n : Rat)) (fun l => if l = 0 then 10 else 7) "10.0.0.1").2.1 rfl

/-! ## Concurrent first use of the registry -/

/-- A caller that runs its locked regions without interruption behaves as the sequential
`GetLimiter`. -/
theorem caller_alone_eq_getLimiter (i : IPRateLimiter) (heap : Heap) (ip : String) :
    interleave [Caller.reading ip] (i, heap) [0, 0]
      = ([Caller.returned (i.GetLimiter ip heap).1], (i.GetLimiter ip heap).2) := by
  cases h : i.ips.lookup ip with
  | some p => simp [interleave, Caller.step, IPRateLimiter.GetLimiter, h]
  | none => simp [interleave, Caller.step, IPRateLimiter.GetLimiter, h]

/-- C11 fails on the code. Two callers of `GetLimiter` for the same unseen address, on a
fresh registry with rate 5 and burst 10, interleaved as read, read, add, add: both reads miss,
each caller then constructs a limiter of its own; the first caller returns limiter 0, the
second limiter 1, two limiters exist, and the map keeps only the second. When one caller
finishes before the other starts, both return limiter 0. -/
theorem getLimiter_race :
    interleave [Caller.reading "10.0.0.1", Caller.reading "10.0.0.1"]
        (NewIPRateLimiter 5 10, []) [0, 1, 0, 1]
      = ([Caller.returned 0, Caller.returned 1],
          ({ ips := (∅ : AList (fun _ : String => LimiterRef)).insert "10.0.0.1" 1,
             r := 5, b := 10 },
           [{ limit := 5, burst := 10 }, { limit := 5, burst := 10 }])) ∧
    (interleave [Caller.reading "10.0.0.1", Caller.reading "10.0.0.1"]
        (NewIPRateLimiter 5 10, []) [0, 0, 1, 1]).1
      = [Caller.returned 0, Caller.returned 0] := by
  constructor
  · simp [interleave, Caller.step, IPRateLimiter.AddIP, NewLimiter, NewIPRateLimiter]
  · decide

/-! ## Reaping and the token bucket -/

/-- C13 as amended (reap of the token-bucket registry, bucket `min(b, tokens + r * elapsed)`).
An identifier registered with a limiter that has received no call since its last one is
absent after `CleanupStaleEntries` at `now` if and only if the bucket has refilled to the
burst by then, that is `b <= tokens + r * elapsed`, however long it has been idle. An
identifier whose limiter admitted a request at `used`, with `r * (now - used) < 1` token
refilled since, is still present after the sweep. The burst enters the bucket and the test
of the sweep as the same number `b`; in the code both hold `float64(b)`. -/
theorem reap_iff_refilled (i : IPRateLimiter) (buckets : LimiterRef → Bucket) (now : Time)
    (ip : String) (limiter : LimiterRef) (hreg : i.ips.lookup ip = some limiter) :
    ((i.CleanupStaleEntries (fun n => (n : Rat))
        fun l => (buckets l).Tokens i.r i.b now).ips.lookup ip = none ↔
      (i.b : Rat) ≤
        (buckets limiter).tokens + i.r * secondsBetween (buckets limiter).last now) ∧
    (∀ (before : Bucket) (used : Time), (before.Allow i.r i.b used).1 = true →
      buckets limiter = (before.Allow i.r i.b used).2 →
      i.r * secondsBetween used now < 1 →
      (i.CleanupStaleEntries (fun n => (n : Rat))
        fun l => (buckets l).Tokens i.r i.b now).ips.lookup ip = some limiter) := by
  have hsweep := lookup_cleanupStaleEntries i (fun n => (n : Rat))
    (fun l => (buckets l).Tokens i.r i.b now) ip
  rw [hreg] at hsweep
  simp only at hsweep
  constructor
  · rw [hsweep]
    unfold Bucket.Tokens
    by_cases hfull : (i.b : Rat) ≤
        (buckets limiter).tokens + i.r * secondsBetween (buckets limiter).last now
    · simp [hfull]
    · have hlt := lt_of_not_le hfull
      have hne : min (i.b : Rat)
          ((buckets limiter).tokens + i.r * secondsBetween (buckets limiter).last now)
          ≠ (i.b : Rat) := by
        rw [min_eq_right (le_of_lt hlt)]
        exact ne_of_lt hlt
      simp [hne, hfull]
  · intro before used hadm hstate hsmall
    rw [hsweep]
    have hadm' : 1 ≤ before.Tokens i.r i.b used := by
      unfold Bucket.Allow at hadm
      by_contra hno
      rw [if_neg hno] at hadm
      cases hadm
    have hbk : (before.Allow i.r i.b used).2
        = { tokens := before.Tokens i.r i.b used - 1, last := used } := by
      unfold Bucket.Allow
      rw [if_pos hadm']
    have hle : before.Tokens i.r i.b used ≤ (i.b : Rat) := by
      unfold Bucket.Tokens
      exact min_le_left _ _
    have hlt : (before.Tokens i.r i.b used - 1) + i.r * secondsBetween used now
        < (i.b : Rat) := by linarith
    have hne : (buckets limiter).Tokens i.r i.b now ≠ (i.b : Rat) := by
      rw [hstate, hbk]
      have hT : ({ tokens := before.Tokens i.r i.b used - 1, last := used } : Bucket).Tokens
          i.r i.b now
          = min (i.b : Rat) ((before.Tokens i.r i.b used - 1) + i.r * secondsBetween used now) :=
        rfl
      rw [hT, min_eq_right (le_of_lt hlt)]
      exact ne_of_lt hlt
    rw [if_neg hne]

/-- C13 as stated fails: rate 1/100 per second and burst 10; the limiter of the address is
created full at 0 and admits ten requests at once, which empties it; it is then idle for 61
seconds, longer than the reap interval. At the sweep it holds 61/100 of a token, not 10, and
the address is still registered. -/
theorem reap_idle_counterexample :
    (0 : Rat) < 1 / 100 ∧ (1 : Int) ≤ 10 ∧
    Minute < 61000000000 - (Bucket.allowTimes (1 / 100) 10 0 10 (Bucket.full 10 0)).last ∧
    (Bucket.allowTimes (1 / 100) 10 0 10 (Bucket.full 10 0)).Tokens (1 / 100) 10 61000000000
      = 61 / 100 ∧
    ((((NewIPRateLimiter (1 / 100) 10).GetLimiter "10.0.0.1" []).2.1.CleanupStaleEntries
        (fun n => (n : Rat)) fun _ => (Bucket.allowTimes (1 / 100) 10 0 10 (Bucket.full 10 0)).Tokens (1 / 100) 10
          61000000000).ips.lookup "10.0.0.1") = some 0 := by
  have hb : Bucket.allowTimes (1 / 100) 10 0 10 (Bucket.full 10 0)
      = { tokens := 0, last := 0 } := by
    norm_num [Bucket.allowTimes, Bucket.Allow, Bucket.Tokens, Bucket.full, secondsBetween]
  have ht : ({ tokens := 0, last := 0 } : Bucket).Tokens (1 / 100) 10 61000000000
      = 61 / 100 := by
    norm_num [Bucket.Tokens, secondsBetween]
  rw [hb, ht]
  refine ⟨by norm_num, by norm_num, by norm_num [Minute], rfl, ?_⟩
  have hc := lookup_cleanupStaleEntries
    ((NewIPRateLimiter (1 / 100) 10).GetLimiter "10.0.0.1" []).2.1
    (fun n => (n : Rat)) (fun _ => (61 / 100 : Rat)) "10.0.0.1"
  rw [hc]
  have hl : ((NewIPRateLimiter (1 / 100) 10).GetLimiter "10.0.0.1" []).2.1.ips.lookup
      "10.0.0.1" = some 0 := by
    decide
  rw [hl]
  norm_num [IPRateLimiter.GetLimiter, IPRateLimiter.AddIP, NewLimiter, NewIPRateLimiter]

/-- C13 as amended, at an instance: rate 5 per second, burst 10; a limiter created full at 0
and never used is full at the sweep 61 seconds later, and its address is removed. -/
theorem reap_iff_refilled_witness :
    ((NewIPRateLimiter 5 10).GetLimiter "10.0.0.1" []).2.1.ips.lookup "10.0.0.1" = some 0 ∧
    ((((NewIPRateLimiter 5 10).GetLimiter "10.0.0.1" []).2.1.CleanupStaleEntries
        (fun n => (n : Rat))
        fun _ => (Bucket.full 10 0).Tokens 5 10 61000000000).ips.lookup "10.0.0.1") = none :=
  ⟨by decide,
    (reap_iff_refilled ((NewIPRateLimiter 5 10).GetLimiter "10.0.0.1" []).2.1
      (fun _ => Bucket.full 10 0) 61000000000 "10.0.0.1" 0 (by decide)).1.2
      (by
        have h5 : ((NewIPRateLimiter 5 10).GetLimiter "10.0.0.1" []).2.1.r = 5 := by
          simp [IPRateLimiter.GetLimiter, IPRateLimiter.AddIP, NewLimiter, NewIPRateLimiter]
        have h10 : ((NewIPRateLimiter 5 10).GetLimiter "10.0.0.1" []).2.1.b = 10 := by
          simp [IPRateLimiter.GetLimiter, IPRateLimiter.AddIP, NewLimiter, NewIPRateLimiter]
        rw [h5, h10]
        norm_num [Bucket.full, secondsBetween])⟩

/-! ## The adapters -/

/-- C14 as amended (deny response of the token-bucket adapters). Whenever the limiter denies,
the response of `TokenBucketRateLimit` and of `IPRateLimit` carries the headers
`X-RateLimit-Limit` (the configured rate as formatted), `X-RateLimit-Remaining` = "0" and
`Retry-After` = "1", and a body whose error field is "Rate limit exceeded"; the body of
`IPRateLimit` also has a message string. -/
theorem tokenBucket_deny_response (fmtRate : Limit → String) (c : Context) :
    (∀ rps : Limit,
      (TokenBucketRateLimit fmtRate rps false c).headers.lookup "X-RateLimit-Limit"
        = some (fmtRate rps) ∧
      (TokenBucketRateLimit fmtRate rps false c).headers.lookup "X-RateLimit-Remaining"
        = some "0" ∧
      (TokenBucketRateLimit fmtRate rps false c).headers.lookup "Retry-After" = some "1" ∧
      ∃ obj, (TokenBucketRateLimit fmtRate rps false c).body = some obj ∧
        obj.lookup "error" = some "Rate limit exceeded") ∧
    (∀ (rateLimiter : IPRateLimiter) (heap : Heap) (allowed : LimiterRef → Bool) (ip : String),
      allowed (rateLimiter.GetLimiter ip heap).1 = false →
      (IPRateLimit fmtRate rateLimiter heap allowed ip c).1.headers.lookup "X-RateLimit-Limit"
        = some (fmtRate rateLimiter.r) ∧
      (IPRateLimit fmtRate rateLimiter heap allowed ip c).1.headers.lookup
        "X-RateLimit-Remaining" = some "0" ∧
      (IPRateLimit fmtRate rateLimiter heap allowed ip c).1.headers.lookup "Retry-After"
        = some "1" ∧
      ∃ obj, (IPRateLimit fmtRate rateLimiter heap allowed ip c).1.body = some obj ∧
        obj.lookup "error" = some "Rate limit exceeded" ∧
        obj.lookup "message" = some "Too many requests from your IP address") := by
  constructor
  · intro rps
    simp [TokenBucketRateLimit, Context.Header, Context.JSON, Context.Abort, List.lookup]
  · intro rateLimiter heap allowed ip hdeny
    simp [IPRateLimit, hdeny, Context.Header, Context.JSON, Context.Abort, List.lookup]

/-- C14 as amended, at an instance: a registry with rate 5 whose limiter denies. -/
theorem tokenBucket_deny_response_witness :
    (IPRateLimit (fun _ => "5") (NewIPRateLimiter 5 10) [] (fun _ => false) "10.0.0.1"
      { headers := [], status := none, body := none, aborted := false,
        nextCalls := 0 }).1.headers.lookup "X-RateLimit-Remaining" = some "0" :=
  ((tokenBucket_deny_response (fun _ => "5")
    { headers := [], status := none, body := none, aborted := false, nextCalls := 0 }).2
    (NewIPRateLimiter 5 10) [] (fun _ => false) "10.0.0.1" rfl).2.1

/-- C14 as stated fails: the deny body of `TokenBucketRateLimit` is the object with the one
field `error`, so it has no message; and the error text of both adapters is
"Rate limit exceeded", not "rate limit exceeded". -/
theorem tokenBucket_deny_counterexample :
    (TokenBucketRateLimit (fun _ => "5") 5 false
      { headers := [], status := none, body := none, aborted := false, nextCalls := 0 }).body
      = some [("error", "Rate limit exceeded")] ∧
    ([("error", "Rate limit exceeded")] : List (String × String)).lookup "message" = none ∧
    ([("error", "Rate limit exceeded")] : List (String × String)).lookup "error"
      ≠ some "rate limit exceeded" ∧
    (IPRateLimit (fun _ => "5") (NewIPRateLimiter 5 10) [] (fun _ => false) "10.0.0.1"
      { headers := [], status := none, body := none, aborted := false, nextCalls := 0 }).1.body
      = some [("error", "Rate limit exceeded"),
          ("message", "Too many requests from your IP address")] := by
  decide

/-- C15 as amended (deny response of the window adapter). Whenever `limiter.Allow(ip)`
returns false, the response of `WindowRateLimit` carries the headers `X-RateLimit-Limit`
(the limit in decimal) and `X-RateLimit-Window` (the window duration as formatted), and a
body whose error field is "Rate limit exceeded" and whose message field is
"Maximum <limit> requests per <window>". -/
theorem window_deny_response (fmtDuration : Duration → String) (limiter : WindowRateLimiter)
    (ip : String) (now : Time) (c : Context) (hdeny : (limiter.Allow ip now).1 = false) :
    (WindowRateLimit fmtDuration limiter ip now c).1.headers.lookup "X-RateLimit-Limit"
      = some (toString limiter.limit) ∧
    (WindowRateLimit fmtDuration limiter ip now c).1.headers.lookup "X-RateLimit-Window"
      = some (fmtDuration limiter.window) ∧
    ∃ obj, (WindowRateLimit fmtDuration limiter ip now c).1.body = some obj ∧
      obj.lookup "error" = some "Rate limit exceeded" ∧
      obj.lookup "message" = some ("Maximum " ++ toString limiter.limit ++ " requests per "
        ++ fmtDuration limiter.window) := by
  simp [WindowRateLimit, hdeny, Context.Header, Context.JSON, Context.Abort, List.lookup]

/-- C15 as amended, at an instance: limit 0 denies the first request. -/
theorem window_deny_response_witness :
    ((NewWindowRateLimiter 0 10).Allow "10.0.0.1" 0).1 = false ∧
    (WindowRateLimit (fun _ => "10ns") (NewWindowRateLimiter 0 10) "10.0.0.1" 0
      { headers := [], status := none, body := none, aborted := false,
        nextCalls := 0 }).1.headers.lookup "X-RateLimit-Window" = some "10ns" :=
  ⟨by decide,
    (window_deny_response (fun _ => "10ns") (NewWindowRateLimiter 0 10) "10.0.0.1" 0
      { headers := [], status := none, body := none, aborted := false, nextCalls := 0 }
      (by decide)).2.1⟩

/-- C15 as stated fails: with limit 1 and window 10 the second request of an address at the
same instant is denied, and the response, built on a context without headers, has the two
headers `X-RateLimit-Window` and `X-RateLimit-Limit` and no `X-RateLimit-Remaining`; its
error text is "Rate limit exceeded", not "rate limit exceeded". -/
theorem window_deny_counterexample :
    (((NewWindowRateLimiter 1 10).Allow "10.0.0.1" 0).2.Allow "10.0.0.1" 0).1 = false ∧
    ((WindowRateLimit (fun _ => "10ns") ((NewWindowRateLimiter 1 10).Allow "10.0.0.1" 0).2
      "10.0.0.1" 0
      { headers := [], status := none, body := none, aborted := false,
        nextCalls := 0 }).1.headers.map Prod.fst) = ["X-RateLimit-Window", "X-RateLimit-Limit"] ∧
    (WindowRateLimit (fun _ => "10ns") ((NewWindowRateLimiter 1 10).Allow "10.0.0.1" 0).2
      "10.0.0.1" 0
      { headers := [], status := none, body := none, aborted := false,
        nextCalls := 0 }).1.headers.lookup "X-RateLimit-Remaining" = none ∧
    ((WindowRateLimit (fun _ => "10ns") ((NewWindowRateLimiter 1 10).Allow "10.0.0.1" 0).2
      "10.0.0.1" 0
      { headers := [], status := none, body := none, aborted := false,
        nextCalls := 0 }).1.body.bind fun obj => obj.lookup "error")
      = some "Rate limit exceeded" ∧
    (some "Rate limit exceeded" : Option String) ≠ some "rate limit exceeded" := by
  decide

/-- C16 (short-circuit contract of the three adapters). For `TokenBucketRateLimit`,
`IPRateLimit` and `WindowRateLimit`: the chain is continued by `Next` (once) if and only if
the limiter admits the request; on a deny the chain is aborted, the status 429 is written and
`Next` is not called; on an allow the adapter leaves headers, status, body and the abort
flag as they were. -/
theorem adapters_short_circuit (fmtRate : Limit → String) (fmtDuration : Duration → String)
    (c : Context) :
    (∀ (rps : Limit) (allowed : Bool),
      ((TokenBucketRateLimit fmtRate rps allowed c).nextCalls = c.nextCalls + 1 ↔
        allowed = true) ∧
      (allowed = false →
        (TokenBucketRateLimit fmtRate rps allowed c).aborted = true ∧
        (TokenBucketRateLimit fmtRate rps allowed c).status = some 429 ∧
        (TokenBucketRateLimit fmtRate rps allowed c).nextCalls = c.nextCalls) ∧
      (allowed = true →
        (TokenBucketRateLimit fmtRate rps allowed c).headers = c.headers ∧
        (TokenBucketRateLimit fmtRate rps allowed c).status = c.status ∧
        (TokenBucketRateLimit fmtRate rps allowed c).body = c.body ∧
        (TokenBucketRateLimit fmtRate rps allowed c).aborted = c.aborted)) ∧
    (∀ (rateLimiter : IPRateLimiter) (heap : Heap) (allowed : LimiterRef → Bool) (ip : String),
      ((IPRateLimit fmtRate rateLimiter heap allowed ip c).1.nextCalls = c.nextCalls + 1 ↔
        allowed (rateLimiter.GetLimiter ip heap).1 = true) ∧
      (allowed (rateLimiter.GetLimiter ip heap).1 = false →
        (IPRateLimit fmtRate rateLimiter heap allowed ip c).1.aborted = true ∧
        (IPRateLimit fmtRate rateLimiter heap allowed ip c).1.status = some 429 ∧
        (IPRateLimit fmtRate rateLimiter heap allowed ip c).1.nextCalls = c.nextCalls) ∧
      (allowed (rateLimiter.GetLimiter ip heap).1 = true →
        (IPRateLimit fmtRate rateLimiter heap allowed ip c).1.headers = c.headers ∧
        (IPRateLimit fmtRate rateLimiter heap allowed ip c).1.status = c.status ∧
        (IPRateLimit fmtRate rateLimiter heap allowed ip c).1.body = c.body ∧
        (IPRateLimit fmtRate rateLimiter heap allowed ip c).1.aborted = c.aborted)) ∧
    (∀ (limiter : WindowRateLimiter) (ip : String) (now : Time),
      ((WindowRateLimit fmtDuration limiter ip now c).1.nextCalls = c.nextCalls + 1 ↔
        (limiter.Allow ip now).1 = true) ∧
      ((limiter.Allow ip now).1 = false →
        (WindowRateLimit fmtDuration limiter ip now c).1.aborted = true ∧
        (WindowRateLimit fmtDuration limiter ip now c).1.status = some 429 ∧
        (WindowRateLimit fmtDuration limiter ip now c).1.nextCalls = c.nextCalls) ∧
      ((limiter.Allow ip now).1 = true →
        (WindowRateLimit fmtDuration limiter ip now c).1.headers = c.headers ∧
        (WindowRateLimit fmtDuration limiter ip now c).1.status = c.status ∧
        (WindowRateLimit fmtDuration limiter ip now c).1.body = c.body ∧
        (WindowRateLimit fmtDuration limiter ip now c).1.aborted = c.aborted)) := by
  refine ⟨?_, ?_, ?_⟩
  · intro rps allowed
    cases allowed <;>
      simp [TokenBucketRateLimit, Context.Header, Context.JSON, Context.Abort, Context.Next,
        StatusTooManyRequests]
  · intro rateLimiter heap allowed ip
    cases h : allowed (rateLimiter.GetLimiter ip heap).1 <;>
      simp [IPRateLimit, h, Context.Header, Context.JSON, Context.Abort, Context.Next,
        StatusTooManyRequests]
  · intro limiter ip now
    cases h : (limiter.Allow ip now).1 <;>
      simp [WindowRateLimit, h, Context.Header, Context.JSON, Context.Abort, Context.Next,
        StatusTooManyRequests]

/-- C16, at an instance: limit 1 and window 10; the first request of an address is passed on
untouched, the second is aborted with status 429. -/
theorem adapters_short_circuit_witness :
    (WindowRateLimit (fun _ => "10ns") (NewWindowRateLimiter 1 10) "10.0.0.1" 0
      { headers := [], status := none, body := none, aborted := false,
        nextCalls := 0 }).1.status = none ∧
    (WindowRateLimit (fun _ => "10ns") ((NewWindowRateLimiter 1 10).Allow "10.0.0.1" 0).2
      "10.0.0.1" 0
      { headers := [], status := none, body := none, aborted := false,
        nextCalls := 0 }).1.status = some 429 :=
  ⟨(((adapters_short_circuit (fun _ => "5") (fun _ => "10ns")
      { headers := [], status := none, body := none, aborted := false, nextCalls := 0 }).2.2
      (NewWindowRateLimiter 1 10) "10.0.0.1" 0).2.2 (by decide)).2.1,
    (((adapters_short_circuit (fun _ => "5") (fun _ => "10ns")
      { headers := [], status := none, body := none, aborted := false, nextCalls := 0 }).2.2
      ((NewWindowRateLimiter 1 10).Allow "10.0.0.1" 0).2 "10.0.0.1" 0).2.1 (by decide)).2.1⟩

/-! ## Construction -/

/-- C17 as amended (construction). `NewWindowRateLimiter` fails for every non-positive
window and for no other configuration: the goroutine it starts panics in `time.NewTicker`
and the process ends with it. For a positive window and every limit, non-positive ones
included, it returns a limiter with an empty map and exactly these settings, and with
`limit <= 0` that limiter answers every `Allow` with false and stays as it is.
`NewIPRateLimiter` never fails: for every rate and burst it returns a registry with an empty
map and exactly these settings, and `GetLimiter` on it hands out a limiter configured with
them. -/
theorem construction_outcomes (limit : Int) (window : Duration) (r : Limit) (b : Int) :
    (window ≤ 0 → ∃ panicMessage,
      startWindowRateLimiter limit window = Except.error panicMessage) ∧
    (0 < window →
      startWindowRateLimiter limit window = Except.ok (NewWindowRateLimiter limit window) ∧
      (NewWindowRateLimiter limit window).limit = limit ∧
      (NewWindowRateLimiter limit window).window = window ∧
      (NewWindowRateLimiter limit window).requests.entries = [] ∧
      (limit ≤ 0 → ∀ (id : String) (now : Time),
        (NewWindowRateLimiter limit window).Allow id now
          = (false, NewWindowRateLimiter limit window))) ∧
    (startIPRateLimiter r b = Except.ok (NewIPRateLimiter r b) ∧
      (NewIPRateLimiter r b).r = r ∧ (NewIPRateLimiter r b).b = b ∧
      (NewIPRateLimiter r b).ips.entries = []) ∧
    (∀ (ip : String) (heap : Heap),
      ((NewIPRateLimiter r b).GetLimiter ip heap).2.2[
          ((NewIPRateLimiter r b).GetLimiter ip heap).1]?
        = some { limit := r, burst := b }) := by
  refine ⟨?_, ?_, ⟨rfl, rfl, rfl, rfl⟩, ?_⟩
  · intro hw
    refine ⟨"non-positive interval for NewTicker", ?_⟩
    simp [startWindowRateLimiter, reaper, NewTicker, NewWindowRateLimiter, hw]
  · intro hw
    have hnot : ¬ window ≤ 0 := not_le.2 hw
    refine ⟨?_, rfl, rfl, rfl, ?_⟩
    · simp [startWindowRateLimiter, reaper, NewTicker, NewWindowRateLimiter, hnot]
    · intro hlimit id now
      have h := (run_nonpositive_limit limit window hlimit [Call.allow id now])
      have hden : ((NewWindowRateLimiter limit window).Allow id now).1 = false :=
        h.2 { identifier := id, now := now,
              admitted := ((NewWindowRateLimiter limit window).Allow id now).1 }
          (by simp [run, step])
      exact Prod.ext hden (allow_denied _ _ _ hden)
  · intro ip heap
    simp [IPRateLimiter.GetLimiter, IPRateLimiter.AddIP, NewLimiter, NewIPRateLimiter]

/-- C17 as amended, at two instances: window 0 ends the process; limit -3 with window 10
gives a limiter that denies. -/
theorem construction_outcomes_witness :
    (∃ panicMessage, startWindowRateLimiter 5 0 = Except.error panicMessage) ∧
    startWindowRateLimiter (-3) 10 = Except.ok (NewWindowRateLimiter (-3) 10) ∧
    (NewWindowRateLimiter (-3) 10).Allow "a" 0 = (false, NewWindowRateLimiter (-3) 10) :=
  ⟨(construction_outcomes 5 0 0 0).1 (by decide),
    ((construction_outcomes (-3) 10 0 0).2.1 (by decide)).1,
    ((construction_outcomes (-3) 10 0 0).2.1 (by decide)).2.2.2.2 (by decide) "a" 0⟩

/-- C17 as stated fails: with limit 0 and window 10 the call of `NewWindowRateLimiter` does
not fail, the program goes on with the limiter, and the limiter answers calls (with false);
with rate 0 and burst 0 the call of `NewIPRateLimiter` does not fail either, and `GetLimiter`
on the registry creates and registers limiter 0. -/
theorem construction_counterexample :
    startWindowRateLimiter 0 10 = Except.ok (NewWindowRateLimiter 0 10) ∧
    (NewWindowRateLimiter 0 10).limit = 0 ∧
    (run (NewWindowRateLimiter 0 10) [Call.allow "a" 0, Call.cleanup 5, Call.allow "a" 20]).2
      = [⟨"a", 0, false⟩, ⟨"a", 20, false⟩] ∧
    startIPRateLimiter 0 0 = Except.ok (NewIPRateLimiter 0 0) ∧
    (NewIPRateLimiter 0 0).b = 0 ∧
    ((NewIPRateLimiter 0 0).GetLimiter "10.0.0.1" []).1 = 0 ∧
    ((NewIPRateLimiter 0 0).GetLimiter "10.0.0.1" []).2.1.ips.lookup "10.0.0.1" = some 0 :=
  ⟨by simp [startWindowRateLimiter, reaper, NewTicker, NewWindowRateLimiter], by decide,
    by decide, rfl, by decide, by decide, by decide⟩

end Middleware

/-! # Properties of Go strings and of the password utilities -/

namespace Go

theorem first_spec (s0 sz lo hi : Nat) (h : first s0 = some (sz, lo, hi)) :
    0x80 ≤ lo ∧ hi ≤ 0xBF ∧ 2 ≤ sz ∧ sz ≤ 4 ∧ 0xC2 ≤ s0 ∧
      (sz = 2 → 2 ≤ s0 % 32) ∧ (sz = 3 → 1 ≤ s0 % 16 ∨ 0xA0 ≤ lo) ∧
      (sz = 4 → 1 ≤ s0 % 8 ∨ 0x90 ≤ lo) := by
  unfold first at h
  split_ifs at h <;> cases h <;> omega

theorem decode_ascii (s0 : Nat) (rest : GoString) (h : s0 < 0x80) :
    DecodeRuneInString (s0 :: rest) = (s0, 1) := by
  simp [DecodeRuneInString, h]

theorem decode_high (s0 : Nat) (rest : GoString) (h : 0x80 ≤ s0) :
    0x80 ≤ (DecodeRuneInString (s0 :: rest)).1 ∧
    1 ≤ (DecodeRuneInString (s0 :: rest)).2 ∧
    ∀ i, i < (DecodeRuneInString (s0 :: rest)).2 → 0x80 ≤ (s0 :: rest).getD i 0 := by
  have h0 : ¬ s0 < 0x80 := by omega
  have hi0 : ∀ i, i < 1 → 0x80 ≤ (s0 :: rest).getD i 0 := by
    intro i hi
    have : i = 0 := by omega
    subst this
    simpa using h
  unfold DecodeRuneInString
  simp only [List.getD_cons_zero, h0, if_false]
  cases hf : first s0 with
  | none => exact ⟨(by decide : 0x80 ≤ RuneError), le_refl _, hi0⟩
  | some x =>
    obtain ⟨sz, lo, hi⟩ := x
    obtain ⟨hlo, hhi, hsz2, hsz4, hs0, h2, h3, h4⟩ := first_spec s0 sz lo hi hf
    simp only
    split_ifs with c1 c2 c3 c4 c5 c6
    · exact ⟨(by decide : 0x80 ≤ RuneError), le_refl _, hi0⟩
    · exact ⟨(by decide : 0x80 ≤ RuneError), le_refl _, hi0⟩
    · refine ⟨?_, (by omega : 1 ≤ _), ?_⟩
      · have := h2 (by omega)
        show 0x80 ≤ s0 % 32 * 64 + (s0 :: rest).getD 1 0 % 64
        omega
      · intro i hi
        have hi' : i < 2 := hi
        have : i = 0 ∨ i = 1 := by omega
        rcases this with rfl | rfl
        · simpa using h
        · omega
    · exact ⟨(by decide : 0x80 ≤ RuneError), le_refl _, hi0⟩
    · refine ⟨?_, (by omega : 1 ≤ _), ?_⟩
      · have := h3 (by omega)
        show 0x80 ≤ s0 % 16 * 4096 + (s0 :: rest).getD 1 0 % 64 * 64
          + (s0 :: rest).getD 2 0 % 64
        omega
      · intro i hi
        have hi' : i < 3 := hi
        have : i = 0 ∨ i = 1 ∨ i = 2 := by omega
        rcases this with rfl | rfl | rfl
        · simpa using h
        · omega
        · omega
    · exact ⟨(by decide : 0x80 ≤ RuneError), le_refl _, hi0⟩
    · refine ⟨?_, (by omega : 1 ≤ _), ?_⟩
      · have := h4 (by omega)
        show 0x80 ≤ s0 % 8 * 262144 + (s0 :: rest).getD 1 0 % 64 * 4096
          + (s0 :: rest).getD 2 0 % 64 * 64 + (s0 :: rest).getD 3 0 % 64
        omega
      · intro i hi
        have hi' : i < 4 := hi
        have : i = 0 ∨ i = 1 ∨ i = 2 ∨ i = 3 := by omega
        rcases this with rfl | rfl | rfl | rfl
        · simpa using h
        · omega
        · omega
        · omega

end Go

namespace Go

theorem take_decoded_high (s0 : Nat) (rest : GoString) (h : 0x80 ≤ s0) (b : Nat)
    (hb : b ∈ (s0 :: rest).take (DecodeRuneInString (s0 :: rest)).2) : 0x80 ≤ b := by
  obtain ⟨-, -, hall⟩ := decode_high s0 rest h
  rw [List.mem_take_iff_getElem] at hb
  obtain ⟨i, hi, rfl⟩ := hb
  have hi1 : i < (DecodeRuneInString (s0 :: rest)).2 := lt_of_lt_of_le hi (min_le_left _ _)
  have hi2 : i < (s0 :: rest).length := lt_of_lt_of_le hi (min_le_right _ _)
  have := hall i hi1
  rw [List.getD_eq_getElem _ _ hi2] at this
  exact this

/-- An ASCII code point is visited by the `range` loop exactly when it is a byte of the
string. -/
theorem mem_runesFrom_ascii (c : Nat) (hc : c < 0x80) :
    ∀ (fuel : Nat) (s : GoString), s.length ≤ fuel → (c ∈ runesFrom fuel s ↔ c ∈ s)
  | 0, s, h => by
    have : s = [] := List.length_eq_zero.1 (Nat.le_zero.1 h)
    subst this
    simp [runesFrom]
  | fuel + 1, [], _ => by simp [runesFrom]
  | fuel + 1, s0 :: rest, h => by
    have hlen : ((s0 :: rest).drop (DecodeRuneInString (s0 :: rest)).2).length ≤ fuel := by
      have h1 : 1 ≤ (DecodeRuneInString (s0 :: rest)).2 := by
        by_cases ha : s0 < 0x80
        · rw [decode_ascii s0 rest ha]
        · exact (decode_high s0 rest (by omega)).2.1
      rw [List.length_drop]
      simp only [List.length_cons] at h ⊢
      omega
    have ih := mem_runesFrom_ascii c hc fuel _ hlen
    have hsplit : c ∈ s0 :: rest ↔
        c ∈ (s0 :: rest).take (DecodeRuneInString (s0 :: rest)).2 ∨
        c ∈ (s0 :: rest).drop (DecodeRuneInString (s0 :: rest)).2 := by
      rw [← List.mem_append, List.take_append_drop]
    rw [runesFrom, List.mem_cons, ih, hsplit]
    by_cases ha : s0 < 0x80
    · rw [decode_ascii s0 rest ha]
      simp
    · have hhigh := decode_high s0 rest (by omega)
      have hne : c ≠ (DecodeRuneInString (s0 :: rest)).1 := by omega
      have hnot : c ∉ (s0 :: rest).take (DecodeRuneInString (s0 :: rest)).2 := by
        intro hmem
        have := take_decoded_high s0 rest (by omega) c hmem
        omega
      simp [hne, hnot]

theorem mem_runes_ascii (s : GoString) (c : Nat) (hc : c < 0x80) : c ∈ runes s ↔ c ∈ s :=
  mem_runesFrom_ascii c hc s.length s (le_refl _)

/-- More iterations than bytes change nothing: `len(s)` iterations exhaust the string. -/
theorem runesFrom_enough :
    ∀ (fuel : Nat) (s : GoString), s.length ≤ fuel → runesFrom fuel s = runes s
  | 0, s, h => by
    have : s = [] := List.length_eq_zero.1 (Nat.le_zero.1 h)
    subst this
    rfl
  | fuel + 1, [], _ => rfl
  | fuel + 1, s0 :: rest, h => by
    have h1 : 1 ≤ (DecodeRuneInString (s0 :: rest)).2 := by
      by_cases ha : s0 < 0x80
      · rw [decode_ascii s0 rest ha]
      · exact (decode_high s0 rest (by omega)).2.1
    have hl : ((s0 :: rest).drop (DecodeRuneInString (s0 :: rest)).2).length ≤ rest.length := by
      rw [List.length_drop]
      simp only [List.length_cons]
      omega
    have hf : rest.length ≤ fuel := by
      simp only [List.length_cons] at h
      omega
    show runesFrom (fuel + 1) (s0 :: rest) = runesFrom (rest.length + 1) (s0 :: rest)
    rw [runesFrom, runesFrom, runesFrom_enough fuel _ (le_trans hl hf),
      runesFrom_enough rest.length _ hl]

end Go

namespace Validator

theorem runes_specialChars : Go.runes specialLiteral = specialLiteral := by decide

theorem specialChars_other (c : Nat) (h : c ∈ specialLiteral) :
    ¬ (65 ≤ c ∧ c ≤ 90) ∧ ¬ (97 ≤ c ∧ c ≤ 122) ∧ ¬ (48 ≤ c ∧ c ≤ 57) ∧ c < 0x80 := by
  have hall : ∀ d ∈ specialLiteral,
      ¬ (65 ≤ d ∧ d ≤ 90) ∧ ¬ (97 ≤ d ∧ d ≤ 122) ∧ ¬ (48 ≤ d ∧ d ≤ 57) ∧ d < 0x80 := by
    decide
  exact hall c h

theorem containsRune_specialChars (c : Nat) :
    Go.ContainsRune specialLiteral c = decide (c ∈ specialLiteral) := by
  unfold Go.ContainsRune
  rw [runes_specialChars]

/-- What one visitValidate does to each flag. -/
theorem visit_flags (f : Flags) (c : Nat) :
    (visitValidate f c).hasUpper = (f.hasUpper || decide (65 ≤ c ∧ c ≤ 90)) ∧
    (visitValidate f c).hasLower = (f.hasLower || decide (97 ≤ c ∧ c ≤ 122)) ∧
    (visitValidate f c).hasNumber = (f.hasNumber || decide (48 ≤ c ∧ c ≤ 57)) ∧
    (visitValidate f c).hasSpecial = (f.hasSpecial || decide (c ∈ specialLiteral)) := by
  unfold visitValidate
  rw [containsRune_specialChars]
  by_cases hs : c ∈ specialLiteral
  · obtain ⟨h1, h2, h3, -⟩ := specialChars_other c hs
    simp [h1, h2, h3, hs]
  · by_cases h1 : 65 ≤ c ∧ c ≤ 90
    · have h2 : ¬ (97 ≤ c ∧ c ≤ 122) := by omega
      have h3 : ¬ (48 ≤ c ∧ c ≤ 57) := by omega
      simp [h1, h2, h3, hs]
    · by_cases h2 : 97 ≤ c ∧ c ≤ 122
      · have h3 : ¬ (48 ≤ c ∧ c ≤ 57) := by omega
        simp [h1, h2, h3, hs]
      · by_cases h3 : 48 ≤ c ∧ c ≤ 57
        · simp [h1, h2, h3, hs]
        · simp [h1, h2, h3, hs]

theorem foldl_visit_flags (rs : List Nat) :
    ∀ f : Flags,
      (rs.foldl visitValidate f).hasUpper = (f.hasUpper || rs.any fun c => decide (65 ≤ c ∧ c ≤ 90)) ∧
      (rs.foldl visitValidate f).hasLower = (f.hasLower || rs.any fun c => decide (97 ≤ c ∧ c ≤ 122)) ∧
      (rs.foldl visitValidate f).hasNumber = (f.hasNumber || rs.any fun c => decide (48 ≤ c ∧ c ≤ 57)) ∧
      (rs.foldl visitValidate f).hasSpecial = (f.hasSpecial || rs.any fun c => decide (c ∈ specialLiteral)) := by
  induction rs with
  | nil => intro f; simp
  | cons c rs ih =>
    intro f
    obtain ⟨i1, i2, i3, i4⟩ := ih (visitValidate f c)
    obtain ⟨v1, v2, v3, v4⟩ := visit_flags f c
    rw [List.foldl_cons, i1, i2, i3, i4, v1, v2, v3, v4]
    simp only [List.any_cons, Bool.or_assoc, and_self]

theorem any_runes_iff (p : Go.GoString) (P : Nat → Prop) [DecidablePred P]
    (hP : ∀ c, P c → c < 0x80) :
    ((Go.runes p).any fun c => decide (P c)) = true ↔ ∃ c ∈ p, P c := by
  rw [List.any_eq_true]
  constructor
  · rintro ⟨c, hc, hpc⟩
    have hpc' : P c := of_decide_eq_true hpc
    exact ⟨c, (Go.mem_runes_ascii p c (hP c hpc')).1 hc, hpc'⟩
  · rintro ⟨c, hc, hpc⟩
    exact ⟨c, (Go.mem_runes_ascii p c (hP c hpc)).2 hc, decide_eq_true hpc⟩

/-- The strings that `validatePassword` accepts, in terms of their bytes. -/
theorem validatePassword_iff (p : Go.GoString) :
    validatePassword p = true ↔
      8 ≤ p.length ∧ (∃ c ∈ p, 65 ≤ c ∧ c ≤ 90) ∧ (∃ c ∈ p, 97 ≤ c ∧ c ≤ 122) ∧
      (∃ c ∈ p, 48 ≤ c ∧ c ≤ 57) ∧ (∃ c ∈ p, c ∈ specialLiteral) := by
  unfold validatePassword
  by_cases hlen : p.length < 8
  · simp only [hlen, if_true]
    constructor
    · intro h; cases h
    · intro h; omega
  · obtain ⟨f1, f2, f3, f4⟩ := foldl_visit_flags (Go.runes p)
      { hasUpper := false, hasLower := false, hasNumber := false, hasSpecial := false }
    simp only [hlen, if_false, f1, f2, f3, f4, Bool.false_or, Bool.and_eq_true]
    rw [any_runes_iff p (fun c => 65 ≤ c ∧ c ≤ 90) (fun c h => by omega),
      any_runes_iff p (fun c => 97 ≤ c ∧ c ≤ 122) (fun c h => by omega),
      any_runes_iff p (fun c => 48 ≤ c ∧ c ≤ 57) (fun c h => by omega),
      any_runes_iff p (fun c => c ∈ specialLiteral)
        (fun c h => (specialChars_other c h).2.2.2)]
    constructor
    · rintro ⟨⟨⟨h1, h2⟩, h3⟩, h4⟩
      exact ⟨by omega, h1, h2, h3, h4⟩
    · rintro ⟨-, h1, h2, h3, h4⟩
      exact ⟨⟨⟨h1, h2⟩, h3⟩, h4⟩

end Validator

namespace Utils

theorem scanSpecial_eq (char : Nat) (l : List Nat) (hasSpecial : Bool) :
    scanSpecial char l hasSpecial = (hasSpecial || decide (char ∈ l)) := by
  induction l with
  | nil => simp [scanSpecial]
  | cons special rest ih =>
    unfold scanSpecial
    by_cases h : char = special
    · simp [h]
    · simp [h, ih]

/-- The loop bodies of the two checkers do the same to the flags. -/
theorem visit_eq (f : Validator.Flags) (c : Nat) : visitStrength f c = Validator.visitValidate f c := by
  have hsp : specialChars = Validator.specialLiteral := rfl
  unfold visitStrength Validator.visitValidate
  rw [scanSpecial_eq, hsp, Validator.runes_specialChars, Validator.containsRune_specialChars]
  by_cases hs : c ∈ Validator.specialLiteral
  · simp [hs]
  · simp [hs]

/-- C21 (the two password-strength checkers agree). For every string `p`,
`validator.validatePassword` accepts `p` if and only if `utils.ValidatePasswordStrength(p)`
returns nil; and both accept exactly the strings of byte length at least 8 that contain an
ASCII uppercase letter, an ASCII lowercase letter, an ASCII digit and one of the characters
of the list of special characters. -/
theorem password_checkers_agree (p : Go.GoString) :
    (Validator.validatePassword p = true ↔ ValidatePasswordStrength p = none) ∧
    (Validator.validatePassword p = true ↔
      8 ≤ p.length ∧ (∃ c ∈ p, 65 ≤ c ∧ c ≤ 90) ∧ (∃ c ∈ p, 97 ≤ c ∧ c ≤ 122) ∧
      (∃ c ∈ p, 48 ≤ c ∧ c ≤ 57) ∧
      (∃ c ∈ p, c ∈ Go.ofAscii "!@#$%^&*()_+-=[]\x7b\x7d|;:,.<>?")) := by
  refine ⟨?_, Validator.validatePassword_iff p⟩
  have hv : visitStrength = Validator.visitValidate := funext fun f => funext fun c => visit_eq f c
  unfold Validator.validatePassword ValidatePasswordStrength
  rw [hv]
  by_cases hlen : p.length < 8
  · simp [hlen]
  · simp only [hlen, if_false]
    generalize (Go.runes p).foldl Validator.visitValidate
      { hasUpper := false, hasLower := false, hasNumber := false, hasSpecial := false } = f
    cases f.hasUpper <;> cases f.hasLower <;> cases f.hasNumber <;> cases f.hasSpecial <;> simp

end Utils

namespace Go

end Go

namespace Utils

end Utils
